import Mathlib

/-!
Verification of the reconciliation and category-normalization core of
`extract-results-usac` (src/src/main.py, src/src/models.py).

The embedding translates:
* `parse_heat_category` (main.py:112-122): Python `re.search` of the pattern
  `(\d+)\s*-\s*Cat(\d+)` with `re.IGNORECASE` over the input string.  The
  regex search is modelled literally: the engine scans candidate start
  positions left to right, and at each position matches a maximal digit run,
  optional whitespace, a hyphen, optional whitespace, a case-insensitive
  `Cat`, and a nonempty digit run (both `\d+` are greedy, and backtracking
  the first `\d+` can never turn a failure into a success because the
  character after a shortened digit run is still a digit, which matches
  neither `\s` nor `-`).  `\d` is modelled as an ASCII digit and `\s` as the
  six ASCII whitespace characters that Python's `\s` accepts.
* the data model of models.py (AthleteResult, AthleteResultHeat, Heat,
  RaceEvent, RaceSeries, AthleteResultDetailed).  Python ints holding places
  and counts are modelled as `Nat` (all are parsed from digit strings),
  optional values as `Option`; `points : Optional[float]` and the free-form
  `event_details` dict are carried opaquely (as `Option String` and a list of
  string pairs) since the core only copies them.  `AthleteResultHeat.place`
  is `Option Nat` because main.py:213 overwrites the scraped int with the
  parsed place, which may be `None`.
* the alignment loop of `main` (main.py:186-236), functionally: in-place
  mutation of a heat's participant list is explicit state threading, Python
  exceptions are `Except`, and Python's stable `sorted(..., key=f)` is the
  unique permutation ordered by the lexicographic pair (key, original
  position), computed here by insertion sort over the position-tagged list.
-/

/-- Python `\s` on ASCII input: the six whitespace characters. -/
def pySpace (c : Char) : Bool :=
  c = ' ' || c = '\t' || c = '\n' || c = '\r' || c = Char.ofNat 11 || c = Char.ofNat 12

/-- Value of a digit run, as Python `int()` of the digits. -/
def digitsToNat (ds : List Char) : Nat :=
  ds.foldl (fun n c => 10 * n + (c.toNat - 48)) 0

/-- Tail of the pattern: case-insensitive `Cat` followed by the greedy `(\d+)`
group; `digits1` is the already-captured first group. -/
def matchCat (digits1 : List Char) : List Char → Option (Nat × String)
  | c1 :: c2 :: c3 :: rest3 =>
    if (c1 = 'C' ∨ c1 = 'c') ∧ (c2 = 'A' ∨ c2 = 'a') ∧ (c3 = 'T' ∨ c3 = 't') then
      if (rest3.takeWhile Char.isDigit).isEmpty then none
      else some (digitsToNat digits1, String.mk (rest3.takeWhile Char.isDigit))
    else none
  | _ => none

/-- Middle of the pattern: the hyphen of `\s*-\s*` (leading `\s*` already
consumed by the caller), then the `Cat<digits>` tail. -/
def matchDash (digits1 : List Char) : List Char → Option (Nat × String)
  | c0 :: rest2 => if c0 = '-' then matchCat digits1 (rest2.dropWhile pySpace) else none
  | [] => none

/-- Attempt to match `(\d+)\s*-\s*Cat(\d+)` (IGNORECASE) at the start of `cs`,
returning the two captured groups (first integer, digits after `Cat`). -/
def matchAt (cs : List Char) : Option (Nat × String) :=
  if (cs.takeWhile Char.isDigit).isEmpty then none
  else matchDash (cs.takeWhile Char.isDigit) ((cs.dropWhile Char.isDigit).dropWhile pySpace)

/-- Model of Python re.search: try `matchAt` at each start position, leftmost first. -/
def searchFrom : List Char → Option (Nat × String)
  | [] => none
  | c :: cs =>
    match matchAt (c :: cs) with
    | some r => some r
    | none => searchFrom cs

/-- The error taxonomy of the core (Python `ValueError`s of main.py/models.py). -/
inductive AlignError where
  /-- main.py:121 — `Invalid category format`. -/
  | formatError (token : String)
  /-- main.py:207-209 — `Multiple heat entries found for athlete .. in heat ..`. -/
  | duplicateParticipant (athleteName : String) (heatId : String)
  /-- models.py:129 — `Mismatch between AthleteResult.name and AthleteResultHeat.name`. -/
  | identityMismatch
  /-- Python `list.index` raising when the element is absent (main.py:225);
  proved unreachable on runs that get that far. -/
  | targetMissing
deriving DecidableEq, Repr

instance {ε α : Type} [DecidableEq ε] [DecidableEq α] :
    DecidableEq (Except ε α) := fun x y =>
  match x, y with
  | .ok a, .ok b => if h : a = b then isTrue (by rw [h]) else isFalse (by simp [h])
  | .error e, .error f =>
    if h : e = f then isTrue (by rw [h]) else isFalse (by simp [h])
  | .ok _, .error _ => isFalse (by simp)
  | .error _, .ok _ => isFalse (by simp)

/-- main.py:112-122 `parse_heat_category`: `None` input yields `(None, None)`;
otherwise search for the pattern and return the groups, or raise. -/
def parse_heat_category : Option String → Except AlignError (Option Nat × Option String)
  | none => .ok (none, none)
  | some s =>
    match searchFrom s.data with
    | some (n, code) => .ok (some n, some code)
    | none => .error (.formatError s)

/-- The spec's token grammar (§4.1): `<integer> - Cat<integer>`, case-insensitive
`Cat`, optional whitespace around the hyphen.  Written from the spec's words,
to compare the parser against. -/
def IsGrammarToken (tok : List Char) : Prop :=
  ∃ d1 w1 w2 d2 : List Char, ∃ c a t : Char,
    tok = d1 ++ w1 ++ ['-'] ++ w2 ++ [c, a, t] ++ d2 ∧
    d1 ≠ [] ∧ (∀ x ∈ d1, x.isDigit = true) ∧
    (∀ x ∈ w1, pySpace x = true) ∧ (∀ x ∈ w2, pySpace x = true) ∧
    (c = 'C' ∨ c = 'c') ∧ (a = 'A' ∨ a = 'a') ∧ (t = 'T' ∨ t = 't') ∧
    d2 ≠ [] ∧ (∀ x ∈ d2, x.isDigit = true)

-- Generic takeWhile/dropWhile decomposition lemmas.

theorem takeWhile_all {α : Type} {p : α → Bool} {l : List α} (h : ∀ x ∈ l, p x = true) :
    l.takeWhile p = l := by
  induction l with
  | nil => rfl
  | cons a as ih =>
    simp only [List.takeWhile_cons, h a (List.mem_cons_self a as)]
    simp [ih fun x hx => h x (List.mem_cons_of_mem a hx)]

theorem takeWhile_append_not {α : Type} {p : α → Bool} {l1 l2 : List α}
    (h1 : ∀ x ∈ l1, p x = true)
    (h2 : ∀ hd, l2.head? = some hd → p hd = false) :
    (l1 ++ l2).takeWhile p = l1 ∧ (l1 ++ l2).dropWhile p = l2 := by
  induction l1 with
  | nil =>
    cases l2 with
    | nil => exact ⟨rfl, rfl⟩
    | cons b bs =>
      have hb : p b = false := h2 b rfl
      constructor
      · simp [List.takeWhile_cons, hb]
      · simp [List.dropWhile_cons, hb]
  | cons a as ih =>
    have ha : p a = true := h1 a (List.mem_cons_self a as)
    have ih' := ih (fun x hx => h1 x (List.mem_cons_of_mem a hx))
    constructor
    · simpa [List.takeWhile_cons, ha] using ih'.1
    · simpa [List.dropWhile_cons, ha] using ih'.2

theorem pySpace_not_digit {c : Char} (h : pySpace c = true) : c.isDigit = false := by
  simp only [pySpace, Bool.or_eq_true, decide_eq_true_eq] at h
  rcases h with ((((h | h) | h) | h) | h) | h <;> subst h <;> decide

/-- The pattern matcher succeeds on any grammar token followed by anything,
with group 1 the token's first digit run and group 2 the maximal digit run
starting at the token's trailing digits. -/
theorem matchAt_grammar {d1 w1 w2 d2 : List Char} {c a t : Char} (suf : List Char)
    (hd1 : d1 ≠ []) (hd1d : ∀ x ∈ d1, x.isDigit = true)
    (hw1 : ∀ x ∈ w1, pySpace x = true) (hw2 : ∀ x ∈ w2, pySpace x = true)
    (hc : c = 'C' ∨ c = 'c') (ha : a = 'A' ∨ a = 'a') (ht : t = 'T' ∨ t = 't')
    (hd2 : d2 ≠ []) (hd2d : ∀ x ∈ d2, x.isDigit = true) :
    matchAt (d1 ++ w1 ++ ['-'] ++ w2 ++ [c, a, t] ++ d2 ++ suf) =
      some (digitsToNat d1, String.mk ((d2 ++ suf).takeWhile Char.isDigit)) := by
  have hcns : pySpace c = false := by rcases hc with h | h <;> subst h <;> decide
  have hl : d1 ++ w1 ++ ['-'] ++ w2 ++ [c, a, t] ++ d2 ++ suf
      = d1 ++ (w1 ++ '-' :: (w2 ++ c :: a :: t :: (d2 ++ suf))) := by
    simp [List.append_assoc]
  have hhead1 : ∀ hd, (w1 ++ '-' :: (w2 ++ c :: a :: t :: (d2 ++ suf))).head? = some hd →
      Char.isDigit hd = false := by
    intro hd hhd
    cases w1 with
    | nil => simp at hhd; subst hhd; decide
    | cons x xs =>
      simp at hhd
      rw [← hhd]
      exact pySpace_not_digit (hw1 x (List.mem_cons_self x xs))
  have htd := takeWhile_append_not (p := Char.isDigit) hd1d hhead1
  have hhead2 : ∀ hd, ('-' :: (w2 ++ c :: a :: t :: (d2 ++ suf))).head? = some hd →
      pySpace hd = false := by
    intro hd hhd; simp at hhd; rw [← hhd]; decide
  have hts := takeWhile_append_not (p := pySpace) hw1 hhead2
  have hhead3 : ∀ hd, (c :: a :: t :: (d2 ++ suf)).head? = some hd → pySpace hd = false := by
    intro hd hhd; simp at hhd; rw [← hhd]; exact hcns
  have hts2 := takeWhile_append_not (p := pySpace) hw2 hhead3
  have hne2 : ((d2 ++ suf).takeWhile Char.isDigit).isEmpty = false := by
    cases hd2e : d2 with
    | nil => exact absurd hd2e hd2
    | cons x xs =>
      have hx : x.isDigit = true := hd2d x (hd2e ▸ List.mem_cons_self x xs)
      simp [List.takeWhile_cons, hx, List.isEmpty]
  have hd1e : d1.isEmpty = false := by
    cases hd1' : d1 with
    | nil => exact absurd hd1' hd1
    | cons x xs => rfl
  rw [hl]
  unfold matchAt
  rw [htd.1, hd1e]
  rw [if_neg Bool.false_ne_true]
  rw [htd.2, hts.2]
  simp only [matchDash]
  rw [if_pos trivial, hts2.2]
  simp only [matchCat]
  rw [if_pos ⟨hc, ha, ht⟩]
  rw [hne2]
  rw [if_neg Bool.false_ne_true]

theorem mem_takeWhile_pred {α : Type} {p : α → Bool} :
    ∀ {l : List α} {x : α}, x ∈ l.takeWhile p → p x = true := by
  intro l
  induction l with
  | nil => intro x hx; simp [List.takeWhile] at hx
  | cons a as ih =>
    intro x hx
    by_cases hpa : p a = true
    · rw [List.takeWhile_cons, if_pos hpa] at hx
      rcases List.mem_cons.mp hx with h | h
      · exact h ▸ hpa
      · exact ih h
    · rw [List.takeWhile_cons, if_neg hpa] at hx
      simp at hx

/-- Soundness: whenever the matcher succeeds, the consumed prefix is a grammar
token (followed by the unconsumed suffix). -/
theorem matchAt_sound {cs : List Char} {r : Nat × String} (h : matchAt cs = some r) :
    ∃ tok suf, cs = tok ++ suf ∧ IsGrammarToken tok := by
  unfold matchAt at h
  by_cases hne : (cs.takeWhile Char.isDigit).isEmpty = true
  · rw [if_pos hne] at h; exact absurd h (by simp)
  rw [if_neg hne] at h
  cases hr1 : (cs.dropWhile Char.isDigit).dropWhile pySpace with
  | nil => rw [hr1] at h; simp [matchDash] at h
  | cons c0 rest2 =>
    rw [hr1] at h
    simp only [matchDash] at h
    by_cases hdash : c0 = '-'
    · rw [if_pos hdash] at h
      cases hr3 : rest2.dropWhile pySpace with
      | nil => rw [hr3] at h; simp [matchCat] at h
      | cons c1 rest3 =>
        cases hr3' : rest3 with
        | nil => rw [hr3, hr3'] at h; simp [matchCat] at h
        | cons c2 rest3' =>
          cases hr3'' : rest3' with
          | nil => rw [hr3, hr3', hr3''] at h; simp [matchCat] at h
          | cons c3 rest4 =>
            rw [hr3, hr3', hr3''] at h
            simp only [matchCat] at h
            by_cases hcat :
                ((c1 = 'C' ∨ c1 = 'c') ∧ (c2 = 'A' ∨ c2 = 'a') ∧ (c3 = 'T' ∨ c3 = 't'))
            · rw [if_pos hcat] at h
              by_cases hne2 : (rest4.takeWhile Char.isDigit).isEmpty = true
              · rw [if_pos hne2] at h; exact absurd h (by simp)
              refine ⟨cs.takeWhile Char.isDigit ++
                (cs.dropWhile Char.isDigit).takeWhile pySpace ++
                ['-'] ++ rest2.takeWhile pySpace ++ [c1, c2, c3] ++
                rest4.takeWhile Char.isDigit,
                rest4.dropWhile Char.isDigit, ?_, ?_⟩
              · have e1 : cs = cs.takeWhile Char.isDigit ++ cs.dropWhile Char.isDigit :=
                  (List.takeWhile_append_dropWhile _ _).symm
                have e2 : cs.dropWhile Char.isDigit =
                    (cs.dropWhile Char.isDigit).takeWhile pySpace ++
                    (cs.dropWhile Char.isDigit).dropWhile pySpace :=
                  (List.takeWhile_append_dropWhile _ _).symm
                have e3 : rest2 = rest2.takeWhile pySpace ++ rest2.dropWhile pySpace :=
                  (List.takeWhile_append_dropWhile _ _).symm
                have e4 : rest4 = rest4.takeWhile Char.isDigit ++
                    rest4.dropWhile Char.isDigit :=
                  (List.takeWhile_append_dropWhile _ _).symm
                conv_lhs => rw [e1, e2, hr1, hdash]
                conv_lhs => rw [e3, hr3, hr3', hr3'']
                nth_rewrite 3 [e4]
                simp [List.append_assoc]
              · refine ⟨cs.takeWhile Char.isDigit,
                  (cs.dropWhile Char.isDigit).takeWhile pySpace,
                  rest2.takeWhile pySpace, rest4.takeWhile Char.isDigit, c1, c2, c3,
                  by simp [List.append_assoc], ?_,
                  fun x hx => mem_takeWhile_pred hx, fun x hx => mem_takeWhile_pred hx,
                  fun x hx => mem_takeWhile_pred hx, hcat.1, hcat.2.1, hcat.2.2, ?_,
                  fun x hx => mem_takeWhile_pred hx⟩
                · intro hcon; rw [hcon] at hne; exact hne rfl
                · intro hcon; rw [hcon] at hne2; exact hne2 rfl
            · rw [if_neg hcat] at h; exact absurd h (by simp)
    · rw [if_neg hdash] at h; exact absurd h (by simp)

theorem matchAt_nil : matchAt ([] : List Char) = none := rfl

theorem searchFrom_none_sound {l : List Char} (h : searchFrom l = none) :
    ∀ pre suf, l = pre ++ suf → matchAt suf = none := by
  induction l with
  | nil =>
    intro pre suf hsplit
    rcases List.append_eq_nil.mp hsplit.symm with ⟨rfl, rfl⟩
    exact matchAt_nil
  | cons c cs ih =>
    intro pre suf hsplit
    unfold searchFrom at h
    cases hm : matchAt (c :: cs) with
    | some r => rw [hm] at h; exact absurd h (by simp)
    | none =>
      rw [hm] at h
      cases pre with
      | nil =>
        simp only [List.nil_append] at hsplit
        rw [← hsplit]
        exact hm
      | cons p ps =>
        simp only [List.cons_append, List.cons.injEq] at hsplit
        exact ih h ps suf hsplit.2

theorem searchFrom_some_sound {l : List Char} {r : Nat × String}
    (h : searchFrom l = some r) :
    ∃ pre suf, l = pre ++ suf ∧ matchAt suf = some r := by
  induction l with
  | nil => simp [searchFrom] at h
  | cons c cs ih =>
    unfold searchFrom at h
    cases hm : matchAt (c :: cs) with
    | some r0 =>
      rw [hm] at h
      simp only [Option.some.injEq] at h
      exact ⟨[], c :: cs, rfl, h ▸ hm⟩
    | none =>
      rw [hm] at h
      rcases ih h with ⟨pre, suf, hsplit, hmat⟩
      exact ⟨c :: pre, suf, by simp [hsplit], hmat⟩

/-- The search fails exactly when no substring of the input is a grammar token. -/
theorem searchFrom_none_iff_no_token (l : List Char) :
    searchFrom l = none ↔ ¬ ∃ pre tok suf, l = pre ++ tok ++ suf ∧ IsGrammarToken tok := by
  constructor
  · rintro h ⟨pre, tok, suf, hsplit, d1, w1, w2, d2, c, a, t, htok, hd1, hd1d, hw1, hw2,
      hc, ha, ht, hd2, hd2d⟩
    have hnone : matchAt (tok ++ suf) = none := by
      refine searchFrom_none_sound h pre (tok ++ suf) ?_
      rw [hsplit, List.append_assoc]
    rw [htok] at hnone
    have := matchAt_grammar suf hd1 hd1d hw1 hw2 hc ha ht hd2 hd2d
    rw [show d1 ++ w1 ++ ['-'] ++ w2 ++ [c, a, t] ++ d2 ++ suf
      = (d1 ++ w1 ++ ['-'] ++ w2 ++ [c, a, t] ++ d2) ++ suf by simp [List.append_assoc]]
      at this
    rw [hnone] at this
    exact absurd this (by simp)
  · intro h
    cases hs : searchFrom l with
    | none => rfl
    | some r =>
      exfalso
      rcases searchFrom_some_sound hs with ⟨pre, suf, hsplit, hmat⟩
      rcases matchAt_sound hmat with ⟨tok, suf2, hsuf, htok⟩
      exact h ⟨pre, tok, suf2, by rw [hsplit, hsuf, List.append_assoc], htok⟩

/-- models.py:5-40 `AthleteResult` — one summary row from the athlete's own
results page.  `event_details` (a free-form str dict) and `points` (a float)
are carried opaquely; dates are opaque codes compared only for equality. -/
structure AthleteResult where
  event_date : Nat
  event_title : String
  event_details : List (String × String)
  event_url : String
  place : Option Nat
  participant_count : Nat
  points : Option String
  name : String
  time : Option String
deriving DecidableEq

/-- models.py:42-51 `AthleteResultHeat` — one roster row of a heat.
`parsed_place`/`parsed_cat` are the attributes attached dynamically at
main.py:217-218 (absent, i.e. `none`, until annotation). -/
structure AthleteResultHeat where
  place : Option Nat
  name : String
  category : Option String
  usac_number : Option Nat
  bib : Option String
  team : Option String
  parsed_place : Option Nat := none
  parsed_cat : Option String := none
deriving DecidableEq

/-- models.py:53-60 `Heat`. -/
structure Heat where
  heat_id : String
  heat_name : String
  participants : List AthleteResultHeat
deriving DecidableEq

/-- models.py:62-70 `RaceEvent`. -/
structure RaceEvent where
  event_name : String
  id : String
  event_date : Nat
  race_label : Option String
  heats : List Heat
deriving DecidableEq

/-- models.py:72-79 `RaceSeries`. -/
structure RaceSeries where
  series_name : String
  permit_id : String
  events : List RaceEvent
deriving DecidableEq

/-- models.py:81-98 `AthleteResultDetailed` — AthleteResult fields plus the
merged heat/event/series fields and the two computed integers. -/
structure AthleteResultDetailed where
  event_date : Nat
  event_title : String
  event_details : List (String × String)
  event_url : String
  place : Option Nat
  participant_count : Nat
  points : Option String
  name : String
  time : Option String
  category : Option String
  usac_number : Option Nat
  bib : Option String
  team : Option String
  heat_id : String
  heat_name : String
  race_event_id : String
  race_event_race_label : Option String
  series_name : String
  permit_id : String
  participants_in_cat : Nat
  place_in_cat : Nat
deriving DecidableEq

/-- models.py:100-160 `AthleteResultDetailed.from_components`: check the
identity precondition (models.py:128-129), then build the merged record from
`result.dict()` updated with the heat-participant identity fields, the heat's
id/name, the event's id/label, the series' name/permit and the two computed
integers (models.py:131-160).  Note the update never touches the summary
record's `place` key, and never copies `heat_result.place`. -/
def from_components (result : AthleteResult) (heat_result : AthleteResultHeat)
    (heat : Heat) (event : RaceEvent) (series : RaceSeries)
    (participants_in_cat : Nat) (place_in_cat : Nat) :
    Except AlignError AthleteResultDetailed :=
  if result.name = heat_result.name then
    .ok {
      event_date := result.event_date
      event_title := result.event_title
      event_details := result.event_details
      event_url := result.event_url
      place := result.place
      participant_count := result.participant_count
      points := result.points
      name := result.name
      time := result.time
      category := heat_result.category
      usac_number := heat_result.usac_number
      bib := heat_result.bib
      team := heat_result.team
      heat_id := heat.heat_id
      heat_name := heat.heat_name
      race_event_id := event.id
      race_event_race_label := event.race_label
      series_name := series.series_name
      permit_id := series.permit_id
      participants_in_cat := participants_in_cat
      place_in_cat := place_in_cat }
  else .error .identityMismatch

/-- A serialized field value of the merged record (`jsonable_encoder` view). -/
inductive FieldVal where
  | vNat (n : Nat)
  | vOptNat (o : Option Nat)
  | vStr (s : String)
  | vOptStr (o : Option String)
  | vPairs (m : List (String × String))
deriving DecidableEq

/-- The merged record as the key/value dict built by `from_components`
(models.py:131-159): `result.dict()` keys in declaration order, then the
updates — every update key is fresh, so order is exactly this. -/
def dictOf (d : AthleteResultDetailed) : List (String × FieldVal) :=
  [("event_date", .vNat d.event_date),
   ("event_title", .vStr d.event_title),
   ("event_details", .vPairs d.event_details),
   ("event_url", .vStr d.event_url),
   ("place", .vOptNat d.place),
   ("participant_count", .vNat d.participant_count),
   ("points", .vOptStr d.points),
   ("name", .vStr d.name),
   ("time", .vOptStr d.time),
   ("category", .vOptStr d.category),
   ("usac_number", .vOptNat d.usac_number),
   ("bib", .vOptStr d.bib),
   ("team", .vOptStr d.team),
   ("heat_id", .vStr d.heat_id),
   ("heat_name", .vStr d.heat_name),
   ("race_event_id", .vStr d.race_event_id),
   ("race_event_race_label", .vOptStr d.race_event_race_label),
   ("series_name", .vStr d.series_name),
   ("permit_id", .vStr d.permit_id),
   ("participants_in_cat", .vNat d.participants_in_cat),
   ("place_in_cat", .vNat d.place_in_cat)]

/-- Placeholder participant for out-of-range `getD` (never actually read:
every access is at a position proved in range). -/
def defaultParticipant : AthleteResultHeat :=
  { place := none, name := "", category := none, usac_number := none,
    bib := none, team := none }

/-- main.py:216-218 for one participant: parse its category token and attach
the derived raw place and category code. -/
def annotate (p : AthleteResultHeat) : Except AlignError AthleteResultHeat := do
  let (pl, ct) ← parse_heat_category p.category
  .ok { p with parsed_place := pl, parsed_cat := ct }

/-- main.py:215-218, the loop over all participants of the heat (fail-fast on
the first malformed token, as the Python loop raises there). -/
def annotateAll : List AthleteResultHeat → Except AlignError (List AthleteResultHeat)
  | [] => .ok []
  | p :: ps => do
    let p2 ← annotate p
    let ps2 ← annotateAll ps
    .ok (p2 :: ps2)

/-- Sort key of main.py:223: `float('inf')` when the parsed place is `None`
or `0`, else the parsed place; `none` stands for infinity. -/
def pyKey (p : AthleteResultHeat) : Option Nat :=
  match p.parsed_place with
  | none => none
  | some n => if n = 0 then none else some n

/-- Strict comparison of sort keys (`none` = infinity, never less). -/
def keyLt : Option Nat → Option Nat → Bool
  | some x, some y => x < y
  | some _, none => true
  | none, _ => false

/-- Total order on position-tagged participants: by key, ties by original
position — the order a stable sort realizes. -/
def lexLe (a b : Nat × AthleteResultHeat) : Bool :=
  keyLt (pyKey a.2) (pyKey b.2) ||
    (decide (pyKey a.2 = pyKey b.2) && decide (a.1 ≤ b.1))

def indexedFrom (n : Nat) : List α → List (Nat × α)
  | [] => []
  | a :: as => (n, a) :: indexedFrom (n + 1) as

def indexed (l : List α) : List (Nat × α) := indexedFrom 0 l

def insertLex (a : Nat × AthleteResultHeat) :
    List (Nat × AthleteResultHeat) → List (Nat × AthleteResultHeat)
  | [] => [a]
  | b :: bs => if lexLe a b then a :: b :: bs else b :: insertLex a bs

def sortLex : List (Nat × AthleteResultHeat) → List (Nat × AthleteResultHeat)
  | [] => []
  | a :: as => insertLex a (sortLex as)

/-- main.py:221-224 `sorted(..., key=...)`: Python's sort is stable, so its
result is the unique permutation ordered by (key, original position); we
compute it by sorting the position-tagged list by the total order `lexLe`. -/
def pySorted (l : List AthleteResultHeat) : List AthleteResultHeat :=
  (sortLex (indexed l)).map Prod.snd

/-- Python `list.index` (main.py:225): position of the first element comparing
equal, or failure. -/
def pyIndex {α : Type} [DecidableEq α] (x : α) : List α → Option Nat
  | [] => none
  | y :: ys => if y = x then some 0 else (pyIndex x ys).map (· + 1)

/-- main.py:203-210, the Heat Participant Matcher: filter the roster by exact
name; none → no match, [m] → the unique entry, more → hard error naming the
athlete and the heat. -/
def match_heat_participant (heat : Heat) (nm : String) :
    Except AlignError (Option AthleteResultHeat) :=
  match heat.participants.filter (fun p => decide (p.name = nm)) with
  | [] => .ok none
  | [m] => .ok (some m)
  | _ => .error (.duplicateParticipant nm heat.heat_id)

/-- main.py:212-225, the Category Rank Normalizer, for the target at roster
position `j`: parse the target's token, overwrite the target's `place` with
the parsed place (main.py:213 — in-place, so position `j` of the roster
changes), annotate every participant (main.py:215-218), count the target's
category (main.py:214,219-220), sort that category's subset (main.py:221-224)
and locate the target in it (main.py:225, Python `list.index`, which compares
by `==`, i.e. structural equality of the records).  Returns the annotated
roster, the (mutated) target, `participants_in_cat` and `place_in_cat`. -/
def categoryRank (parts : List AthleteResultHeat) (j : Nat) :
    Except AlignError
      (List AthleteResultHeat × AthleteResultHeat × Nat × Nat) := do
  let tgt := parts.getD j defaultParticipant
  let (pl, ct) ← parse_heat_category tgt.category
  let ps1 := parts.set j { tgt with place := pl }
  let ps2 ← annotateAll ps1
  let tgt2 := ps2.getD j defaultParticipant
  let cnt := ps2.countP (fun p => decide (p.parsed_cat = ct))
  match pyIndex tgt2 (pySorted (ps2.filter (fun p => decide (p.parsed_cat = ct)))) with
  | some k => .ok (ps2, tgt2, cnt, k + 1)
  | none => .error .targetMissing

/-- main.py:202-236 for one (heat, athlete summary record) pair:
`matches = [p for p in heat.participants if p.name == athlete_result.name]`,
`if not matches: continue`, `if len(matches) > 1: raise`, then normalize and
merge (the guards realize the Matcher of §4.3, see `match_heat_participant`).
Returns the heat with its (possibly mutated) roster, the merged record if one
was produced, and whether the annotation side effect ran on this heat. -/
def processOne (series : RaceSeries) (event : RaceEvent) (heat : Heat)
    (ar : AthleteResult) :
    Except AlignError (Heat × Option AthleteResultDetailed × Bool) :=
  let found := heat.participants.filter (fun p => decide (p.name = ar.name))
  if found.isEmpty then .ok (heat, none, false)
  else if 1 < found.length then
    .error (.duplicateParticipant ar.name heat.heat_id)
  else do
    -- `heat_result = matches[0]` is the participant object at the first
    -- name-matching roster position; later reads see its mutations.
    let j := heat.participants.findIdx (fun p => decide (p.name = ar.name))
    let (ps2, tgt2, cnt, pic) ← categoryRank heat.participants j
    let d ← from_components ar tgt2 { heat with participants := ps2 }
      event series cnt pic
    .ok ({ heat with participants := ps2 }, some d, true)

/-- main.py:202: the loop `for athlete_result in matching_results` over one
heat, threading the heat's mutated roster; also counts how many times the
annotation side effect ran on this heat. -/
def processHeat (series : RaceSeries) (event : RaceEvent) (heat : Heat) :
    List AthleteResult →
    Except AlignError (Heat × List AthleteResultDetailed × Nat)
  | [] => .ok (heat, [], 0)
  | ar :: ars => do
    let (h1, r?, ann) ← processOne series event heat ar
    let (h2, rs, n) ← processHeat series event h1 ars
    .ok (h2, r?.toList ++ rs, (if ann then 1 else 0) + n)

/-- main.py:201: the loop `for heat in event.heats`; the annotation log holds
one `heat_id` entry per annotation side effect, in processing order. -/
def processHeats (series : RaceSeries) (event : RaceEvent)
    (recs : List AthleteResult) :
    List Heat → Except AlignError (List AthleteResultDetailed × List String)
  | [] => .ok ([], [])
  | h :: hs => do
    let (_, rs, n) ← processHeat series event h recs
    let (rs2, log2) ← processHeats series event recs hs
    .ok (rs ++ rs2, List.replicate n h.heat_id ++ log2)

/-- main.py:196-200 for one event: the records of this event's date (the
`athlete_results_by_date` lookup — grouping preserves encounter order, so the
bucket is exactly the date-filtered group); skip the event if there are none
(`continue` fires before any heat is touched). -/
def processEvent (series : RaceSeries) (group : List AthleteResult)
    (event : RaceEvent) :
    Except AlignError (List AthleteResultDetailed × List String) :=
  let recs := group.filter (fun ar => decide (ar.event_date = event.event_date))
  if recs.isEmpty then .ok ([], [])
  else processHeats series event recs event.heats

/-- main.py:196: the loop `for event in race_series_results.events`. -/
def processEvents (series : RaceSeries) (group : List AthleteResult) :
    List RaceEvent → Except AlignError (List AthleteResultDetailed × List String)
  | [] => .ok ([], [])
  | e :: es => do
    let (r1, l1) ← processEvent series group e
    let (r2, l2) ← processEvents series group es
    .ok (r1 ++ r2, l1 ++ l2)

/-- The Series Alignment Engine for one series: all DetailedResults this
series contributes to `detailed_results`, in processing order, plus the
annotation log. -/
def processSeries (series : RaceSeries) (group : List AthleteResult) :
    Except AlignError (List AthleteResultDetailed × List String) :=
  processEvents series group series.events

/-- main.py:186-236, the outer loop over event-URL groups (each paired with
its scraped series tree): `detailed_results` accumulates across series in
group order. -/
def alignAll : List (RaceSeries × List AthleteResult) →
    Except AlignError (List AthleteResultDetailed)
  | [] => .ok []
  | (s, g) :: rest => do
    let (r, _) ← processSeries s g
    let rs ← alignAll rest
    .ok (r ++ rs)

/-- Spec-side view (§4.2): the category code a participant's token parses to
(`none` for an absent token). -/
def parsedCatOf (p : AthleteResultHeat) : Option String :=
  match parse_heat_category p.category with
  | .ok (_, c) => c
  | .error _ => none

/-- Spec-side list concatenation-map, used to state aggregate outputs. -/
def concatMap (f : α → List β) : List α → List β
  | [] => []
  | a :: as => f a ++ concatMap f as

-- Generic list facts used by the engine lemmas.

theorem countP_mono_of_imp {α : Type} {p q : α → Bool}
    (h : ∀ x, p x = true → q x = true) :
    ∀ l : List α, l.countP p ≤ l.countP q := by
  intro l
  induction l with
  | nil => simp [List.countP_nil]
  | cons a as ih =>
    rw [List.countP_cons, List.countP_cons]
    by_cases hpa : p a = true
    · rw [h a hpa, hpa]
      simpa using ih
    · have : (if p a = true then 1 else 0) = 0 := by simp [hpa]
      rw [this]
      rcases Nat.le.dest ih with ⟨k, hk⟩
      omega

theorem filter_singleton_findIdx {α : Type} {p : α → Bool} {tgt : α} {d : α} :
    ∀ {l : List α}, l.filter p = [tgt] →
      l.findIdx p < l.length ∧ l.getD (l.findIdx p) d = tgt ∧ p tgt = true := by
  intro l
  induction l with
  | nil => intro h; simp at h
  | cons a as ih =>
    intro h
    by_cases hpa : p a = true
    · rw [List.filter_cons_of_pos hpa] at h
      simp only [List.cons.injEq] at h
      refine ⟨?_, ?_, h.1 ▸ hpa⟩
      · rw [List.findIdx_cons, hpa]; simp
      · rw [List.findIdx_cons, hpa]
        simpa using h.1
    · have hpa' : p a = false := by simpa using hpa
      rw [List.filter_cons_of_neg (by simpa using hpa)] at h
      rcases ih h with ⟨h1, h2, h3⟩
      refine ⟨?_, ?_, h3⟩
      · rw [List.findIdx_cons, hpa']
        simpa using Nat.succ_lt_succ h1
      · rw [List.findIdx_cons, hpa']
        simpa using h2

theorem length_le_one_cases {α : Type} {l : List α} (h : l.length ≤ 1) :
    l = [] ∨ ∃ a, l = [a] := by
  cases l with
  | nil => exact Or.inl rfl
  | cons a as =>
    cases as with
    | nil => exact Or.inr ⟨a, rfl⟩
    | cons b bs => simp at h

theorem two_le_length_cases {α : Type} {l : List α} (h : 2 ≤ l.length) :
    ∃ a b tl, l = a :: b :: tl := by
  cases l with
  | nil => simp at h
  | cons a as =>
    cases as with
    | nil => simp at h
    | cons b bs => exact ⟨a, b, bs, rfl⟩

-- pyIndex facts.

theorem pyIndex_some_lt {α : Type} [DecidableEq α] {x : α} :
    ∀ {l : List α} {k : Nat}, pyIndex x l = some k → k < l.length := by
  intro l
  induction l with
  | nil => intro k h; simp [pyIndex] at h
  | cons y ys ih =>
    intro k h
    unfold pyIndex at h
    by_cases hy : y = x
    · rw [if_pos hy] at h
      simp only [Option.some.injEq] at h
      simp [← h]
    · rw [if_neg hy] at h
      cases hk : pyIndex x ys with
      | none => rw [hk] at h; simp at h
      | some k0 =>
        rw [hk] at h
        simp at h
        have := ih hk
        simp [← h]
        omega

theorem pyIndex_mem_isSome {α : Type} [DecidableEq α] {x : α} :
    ∀ {l : List α}, x ∈ l → ∃ k, pyIndex x l = some k := by
  intro l
  induction l with
  | nil => intro h; simp at h
  | cons y ys ih =>
    intro h
    unfold pyIndex
    by_cases hy : y = x
    · exact ⟨0, by rw [if_pos hy]⟩
    · rcases List.mem_cons.mp h with h1 | h1
      · exact absurd h1.symm hy
      · rcases ih h1 with ⟨k, hk⟩
        exact ⟨k + 1, by rw [if_neg hy, hk]; rfl⟩

theorem pyIndex_spec {α : Type} [DecidableEq α] {x : α} :
    ∀ {l : List α} {k : Nat}, pyIndex x l = some k →
      l[k]? = some x ∧ ∀ i, i < k → l[i]? ≠ some x := by
  intro l
  induction l with
  | nil => intro k h; simp [pyIndex] at h
  | cons y ys ih =>
    intro k h
    unfold pyIndex at h
    by_cases hy : y = x
    · rw [if_pos hy] at h
      simp only [Option.some.injEq] at h
      subst h
      exact ⟨by simpa using hy, fun i hi => by omega⟩
    · rw [if_neg hy] at h
      cases hk : pyIndex x ys with
      | none => rw [hk] at h; simp at h
      | some k0 =>
        rw [hk] at h
        simp at h
        subst h
        rcases ih hk with ⟨ih1, ih2⟩
        refine ⟨by simpa using ih1, ?_⟩
        intro i hi
        cases i with
        | zero => simpa using hy
        | succ i0 =>
          have := ih2 i0 (by omega)
          simpa using this

-- Sorting facts: membership, length, and countP preservation.

theorem mem_insertLex {a x : Nat × AthleteResultHeat} :
    ∀ {l : List (Nat × AthleteResultHeat)},
      (x ∈ insertLex a l ↔ x = a ∨ x ∈ l) := by
  intro l
  induction l with
  | nil => simp [insertLex]
  | cons b bs ih =>
    unfold insertLex
    by_cases hle : lexLe a b = true
    · rw [if_pos hle]
      simp only [List.mem_cons]
    · rw [if_neg hle]
      simp only [List.mem_cons, ih]
      tauto

theorem mem_sortLex {x : Nat × AthleteResultHeat} :
    ∀ {l : List (Nat × AthleteResultHeat)}, (x ∈ sortLex l ↔ x ∈ l) := by
  intro l
  induction l with
  | nil => simp [sortLex]
  | cons a as ih =>
    unfold sortLex
    rw [mem_insertLex]
    simp only [List.mem_cons, ih]

theorem countP_insertLex (q : Nat × AthleteResultHeat → Bool)
    (a : Nat × AthleteResultHeat) :
    ∀ l : List (Nat × AthleteResultHeat),
      (insertLex a l).countP q = (a :: l).countP q := by
  intro l
  induction l with
  | nil => simp [insertLex]
  | cons b bs ih =>
    unfold insertLex
    by_cases hle : lexLe a b = true
    · rw [if_pos hle]
    · rw [if_neg hle]
      rw [List.countP_cons, List.countP_cons, ih, List.countP_cons, List.countP_cons]
      omega

theorem countP_sortLex (q : Nat × AthleteResultHeat → Bool) :
    ∀ l : List (Nat × AthleteResultHeat), (sortLex l).countP q = l.countP q := by
  intro l
  induction l with
  | nil => rfl
  | cons a as ih =>
    unfold sortLex
    rw [countP_insertLex, List.countP_cons, List.countP_cons, ih]

theorem length_insertLex (a : Nat × AthleteResultHeat) :
    ∀ l : List (Nat × AthleteResultHeat),
      (insertLex a l).length = l.length + 1 := by
  intro l
  induction l with
  | nil => rfl
  | cons b bs ih =>
    unfold insertLex
    by_cases hle : lexLe a b = true
    · rw [if_pos hle]; rfl
    · rw [if_neg hle]
      simp [ih]

theorem length_sortLex :
    ∀ l : List (Nat × AthleteResultHeat), (sortLex l).length = l.length := by
  intro l
  induction l with
  | nil => rfl
  | cons a as ih =>
    unfold sortLex
    rw [length_insertLex, ih]
    rfl

-- Position-tagging facts.

theorem indexedFrom_map_snd : ∀ (l : List α) (n : Nat),
    (indexedFrom n l).map Prod.snd = l := by
  intro l
  induction l with
  | nil => intro n; rfl
  | cons a as ih =>
    intro n
    simp only [indexedFrom, List.map_cons, ih]

theorem mem_indexedFrom_snd {x : α} :
    ∀ {l : List α} {n : Nat}, x ∈ l → ∃ i, (i, x) ∈ indexedFrom n l := by
  intro l
  induction l with
  | nil => intro n h; simp at h
  | cons a as ih =>
    intro n h
    rcases List.mem_cons.mp h with h1 | h1
    · exact ⟨n, by simp [indexedFrom, h1]⟩
    · rcases ih (n := n + 1) h1 with ⟨i, hi⟩
      exact ⟨i, by simp [indexedFrom]; right; exact hi⟩

theorem length_pySorted (l : List AthleteResultHeat) :
    (pySorted l).length = l.length := by
  unfold pySorted
  rw [List.length_map, length_sortLex]
  have := indexedFrom_map_snd l 0
  have hlen := congrArg List.length this
  rw [List.length_map] at hlen
  exact hlen

theorem mem_pySorted_of_mem {x : AthleteResultHeat} {l : List AthleteResultHeat}
    (h : x ∈ l) : x ∈ pySorted l := by
  unfold pySorted
  rcases mem_indexedFrom_snd (n := 0) h with ⟨i, hi⟩
  have : (i, x) ∈ sortLex (indexed l) := mem_sortLex.mpr hi
  exact List.mem_map.mpr ⟨(i, x), this, rfl⟩

theorem countX_pySorted (x : AthleteResultHeat) (l : List AthleteResultHeat) :
    (pySorted l).countP (fun y => decide (y = x)) =
      l.countP (fun y => decide (y = x)) := by
  unfold pySorted indexed
  rw [List.countP_map, countP_sortLex]
  conv_rhs => rw [← indexedFrom_map_snd l 0]
  rw [List.countP_map]

-- Two distinct positions holding the same value force a count of at least 2,
-- and conversely a count below 2 forces position uniqueness.

theorem two_le_countX_of_two_pos {α : Type} [DecidableEq α] {x : α} :
    ∀ {l : List α} {i k : Nat}, i < k → l[i]? = some x → l[k]? = some x →
      2 ≤ l.countP (fun y => decide (y = x)) := by
  intro l
  induction l with
  | nil => intro i k hik hi hk; simp at hi
  | cons a as ih =>
    intro i k hik hi hk
    cases i with
    | zero =>
      simp only [List.getElem?_cons_zero, Option.some.injEq] at hi
      cases k with
      | zero => omega
      | succ k0 =>
        simp only [List.getElem?_cons_succ] at hk
        have hmem : x ∈ as := by
          have hk0 : k0 < as.length := by
            by_contra hcon
            rw [List.getElem?_eq_none (by omega)] at hk
            simp at hk
          have := List.getElem?_eq_getElem hk0
          rw [this] at hk
          simp only [Option.some.injEq] at hk
          exact hk ▸ List.getElem_mem hk0
        have h1 : 1 ≤ as.countP (fun y => decide (y = x)) := by
          rcases List.countP_pos (p := fun y => decide (y = x)) (l := as) |>.mpr
            ⟨x, hmem, by simp⟩ with h
          omega
        rw [List.countP_cons]
        rw [show (if decide (a = x) = true then 1 else 0) = 1 from by simp [hi]]
        omega
    | succ i0 =>
      cases k with
      | zero => omega
      | succ k0 =>
        simp only [List.getElem?_cons_succ] at hi hk
        have := ih (by omega : i0 < k0) hi hk
        rw [List.countP_cons]
        omega

theorem pos_unique_of_countX_le_one {α : Type} [DecidableEq α] {x : α}
    {l : List α} {i k : Nat} (hcount : l.countP (fun y => decide (y = x)) ≤ 1)
    (hi : l[i]? = some x) (hk : l[k]? = some x) : i = k := by
  by_contra hne
  rcases Nat.lt_or_ge i k with hlt | hge
  · exact absurd (two_le_countX_of_two_pos hlt hi hk) (by omega)
  · have hlt : k < i := by omega
    exact absurd (two_le_countX_of_two_pos hlt hk hi) (by omega)

-- Except bind reduction helpers.

theorem bind_ok_eq {ε α β : Type} (v : α) (f : α → Except ε β) :
    (Except.ok v >>= f) = f v := rfl

theorem bind_error_eq {ε α β : Type} (e : ε) (f : α → Except ε β) :
    ((Except.error e : Except ε α) >>= f) = Except.error e := rfl

-- Annotation facts.

theorem annotate_eq_of_parse {p : AthleteResultHeat} {pl : Option Nat}
    {ct : Option String} (hp : parse_heat_category p.category = .ok (pl, ct)) :
    annotate p = .ok { p with parsed_place := pl, parsed_cat := ct } := by
  unfold annotate
  rw [hp, bind_ok_eq]

theorem annotate_ok_inv {p p2 : AthleteResultHeat} (h : annotate p = .ok p2) :
    ∃ pl ct, parse_heat_category p.category = .ok (pl, ct) ∧
      p2 = { p with parsed_place := pl, parsed_cat := ct } := by
  unfold annotate at h
  cases hp : parse_heat_category p.category with
  | error e => rw [hp, bind_error_eq] at h; exact absurd h (by simp)
  | ok v =>
    obtain ⟨pl, ct⟩ := v
    rw [hp, bind_ok_eq] at h
    simp only [Except.ok.injEq] at h
    exact ⟨pl, ct, rfl, h.symm⟩

theorem annotateAll_cons_inv {p : AthleteResultHeat} {ps l' : List AthleteResultHeat}
    (h : annotateAll (p :: ps) = .ok l') :
    ∃ p2 ps2, annotate p = .ok p2 ∧ annotateAll ps = .ok ps2 ∧ l' = p2 :: ps2 := by
  unfold annotateAll at h
  cases hap : annotate p with
  | error e => rw [hap, bind_error_eq] at h; exact absurd h (by simp)
  | ok p2 =>
    rw [hap, bind_ok_eq] at h
    cases has : annotateAll ps with
    | error e => rw [has, bind_error_eq] at h; exact absurd h (by simp)
    | ok ps2 =>
      rw [has, bind_ok_eq] at h
      simp only [Except.ok.injEq] at h
      exact ⟨p2, ps2, rfl, rfl, h.symm⟩

theorem annotateAll_length : ∀ {l l' : List AthleteResultHeat},
    annotateAll l = .ok l' → l'.length = l.length := by
  intro l
  induction l with
  | nil =>
    intro l' h
    simp only [annotateAll, Except.ok.injEq] at h
    simp [← h]
  | cons p ps ih =>
    intro l' h
    rcases annotateAll_cons_inv h with ⟨p2, ps2, _, has, rfl⟩
    simp [ih has]

theorem annotateAll_get : ∀ {l l' : List AthleteResultHeat},
    annotateAll l = .ok l' → ∀ i (hi : i < l.length) (hi' : i < l'.length),
      annotate l[i] = .ok l'[i] := by
  intro l
  induction l with
  | nil => intro l' h i hi; simp at hi
  | cons p ps ih =>
    intro l' h i hi hi'
    rcases annotateAll_cons_inv h with ⟨p2, ps2, hap, has, rfl⟩
    cases i with
    | zero => simpa using hap
    | succ i0 =>
      have hi0 : i0 < ps.length := by simpa using hi
      have hi0' : i0 < ps2.length := by simpa using hi'
      simpa using ih has i0 hi0 hi0'

theorem annotateAll_exists : ∀ {l : List AthleteResultHeat},
    (∀ p ∈ l, ∃ v, parse_heat_category p.category = .ok v) →
      ∃ l', annotateAll l = .ok l' := by
  intro l
  induction l with
  | nil => intro _; exact ⟨[], rfl⟩
  | cons p ps ih =>
    intro hall
    rcases hall p (List.mem_cons_self p ps) with ⟨⟨pl, ct⟩, hp⟩
    rcases ih (fun q hq => hall q (List.mem_cons_of_mem p hq)) with ⟨ps2, has⟩
    refine ⟨{ p with parsed_place := pl, parsed_cat := ct } :: ps2, ?_⟩
    unfold annotateAll
    rw [annotate_eq_of_parse hp, bind_ok_eq, has, bind_ok_eq]

theorem annotateAll_map_name : ∀ {l l' : List AthleteResultHeat},
    annotateAll l = .ok l' →
      l'.map (fun p => p.name) = l.map (fun p => p.name) := by
  intro l
  induction l with
  | nil =>
    intro l' h
    simp only [annotateAll, Except.ok.injEq] at h
    simp [← h]
  | cons p ps ih =>
    intro l' h
    rcases annotateAll_cons_inv h with ⟨p2, ps2, hap, has, rfl⟩
    rcases annotate_ok_inv hap with ⟨pl, ct, _, rfl⟩
    simp [ih has]

theorem map_name_set : ∀ (l : List AthleteResultHeat) (j : Nat)
    (v : AthleteResultHeat),
    v.name = (l.getD j defaultParticipant).name →
      (l.set j v).map (fun p => p.name) = l.map (fun p => p.name) := by
  intro l
  induction l with
  | nil => intro j v _; rfl
  | cons a as ih =>
    intro j v hv
    cases j with
    | zero =>
      simp only [List.getD_cons_zero] at hv
      simp [List.set, hv]
    | succ j0 =>
      simp only [List.getD_cons_succ] at hv
      simp only [List.set, List.map_cons, List.cons.injEq]
      exact ⟨trivial, ih j0 v hv⟩

theorem countP_name_eq_of_map_name {l l2 : List AthleteResultHeat} {nm : String}
    (h : l.map (fun p => p.name) = l2.map (fun p => p.name)) :
    l.countP (fun p => decide (p.name = nm)) =
      l2.countP (fun p => decide (p.name = nm)) := by
  have h1 := List.countP_map (fun s => decide (s = nm)) (fun p : AthleteResultHeat => p.name) l
  have h2 := List.countP_map (fun s => decide (s = nm)) (fun p : AthleteResultHeat => p.name) l2
  rw [h] at h1
  rw [h2] at h1
  exact h1.symm

-- Category Rank Normalizer facts.

theorem categoryRank_ok_inv {parts : List AthleteResultHeat} {j : Nat}
    {ps2 : List AthleteResultHeat} {tgt2 : AthleteResultHeat} {cnt pic : Nat}
    (h : categoryRank parts j = .ok (ps2, tgt2, cnt, pic)) :
    ∃ pl ct k,
      parse_heat_category (parts.getD j defaultParticipant).category = .ok (pl, ct) ∧
      annotateAll (parts.set j
        { parts.getD j defaultParticipant with place := pl }) = .ok ps2 ∧
      tgt2 = ps2.getD j defaultParticipant ∧
      cnt = ps2.countP (fun p => decide (p.parsed_cat = ct)) ∧
      pyIndex tgt2
        (pySorted (ps2.filter (fun p => decide (p.parsed_cat = ct)))) = some k ∧
      pic = k + 1 := by
  simp only [categoryRank] at h
  cases hp : parse_heat_category (parts.getD j defaultParticipant).category with
  | error e => rw [hp, bind_error_eq] at h; exact absurd h (by simp)
  | ok v =>
    obtain ⟨pl, ct⟩ := v
    rw [hp, bind_ok_eq] at h
    cases hann : annotateAll (parts.set j
        { parts.getD j defaultParticipant with place := pl }) with
    | error e => rw [hann, bind_error_eq] at h; exact absurd h (by simp)
    | ok l2 =>
      rw [hann, bind_ok_eq] at h
      cases hpi : pyIndex (l2.getD j defaultParticipant)
          (pySorted (l2.filter (fun p => decide (p.parsed_cat = ct)))) with
      | none => rw [hpi] at h; exact absurd h (by simp)
      | some k =>
        rw [hpi] at h
        simp only [Except.ok.injEq, Prod.mk.injEq] at h
        obtain ⟨h1, h2, h3, h4⟩ := h
        subst h1
        refine ⟨pl, ct, k, rfl, hann, h2.symm, h3.symm, ?_, h4.symm⟩
        rw [← h2]
        exact hpi

theorem categoryRank_ok_spec {parts : List AthleteResultHeat} {j : Nat}
    (hj : j < parts.length) {pl : Option Nat} {ct : Option String}
    (hp : parse_heat_category (parts[j]).category = .ok (pl, ct))
    (hall : ∀ p ∈ parts, ∃ v, parse_heat_category p.category = .ok v) :
    ∃ ps2 k,
      annotateAll (parts.set j { parts[j] with place := pl }) = .ok ps2 ∧
      ps2.length = parts.length ∧
      (∀ hj2 : j < ps2.length, ps2[j] =
        { parts[j] with place := pl, parsed_place := pl, parsed_cat := ct }) ∧
      pyIndex { parts[j] with place := pl, parsed_place := pl, parsed_cat := ct }
        (pySorted (ps2.filter (fun p => decide (p.parsed_cat = ct)))) = some k ∧
      categoryRank parts j = .ok (ps2,
        { parts[j] with place := pl, parsed_place := pl, parsed_cat := ct },
        ps2.countP (fun p => decide (p.parsed_cat = ct)), k + 1) := by
  have hgd : parts.getD j defaultParticipant = parts[j] :=
    List.getD_eq_getElem parts defaultParticipant hj
  have hall1 : ∀ p ∈ parts.set j { parts[j] with place := pl },
      ∃ v, parse_heat_category p.category = .ok v := by
    intro p hpmem
    rcases List.mem_or_eq_of_mem_set hpmem with hpm | hpe
    · exact hall p hpm
    · subst hpe
      exact ⟨(pl, ct), hp⟩
  rcases annotateAll_exists hall1 with ⟨ps2, hann⟩
  have hlen : ps2.length = parts.length := by
    rw [annotateAll_length hann, List.length_set]
  have hj2 : j < ps2.length := by omega
  have hget : ps2[j] =
      { parts[j] with place := pl, parsed_place := pl, parsed_cat := ct } := by
    have hjs : j < (parts.set j { parts[j] with place := pl }).length := by
      rw [List.length_set]; exact hj
    have := annotateAll_get hann j hjs hj2
    rw [List.getElem_set_self hjs] at this
    have hup : annotate { parts[j] with place := pl } =
        .ok { parts[j] with place := pl, parsed_place := pl, parsed_cat := ct } :=
      annotate_eq_of_parse hp
    rw [hup] at this
    simp only [Except.ok.injEq] at this
    exact this.symm
  have hgd2 : ps2.getD j defaultParticipant =
      { parts[j] with place := pl, parsed_place := pl, parsed_cat := ct } := by
    rw [List.getD_eq_getElem ps2 defaultParticipant hj2, hget]
  have hmemfil :
      ({ parts[j] with place := pl, parsed_place := pl, parsed_cat := ct } :
        AthleteResultHeat) ∈ ps2.filter (fun p => decide (p.parsed_cat = ct)) := by
    refine List.mem_filter.mpr ⟨?_, by simp⟩
    rw [← hget]
    exact List.getElem_mem hj2
  rcases pyIndex_mem_isSome (mem_pySorted_of_mem hmemfil) with ⟨k, hpi⟩
  refine ⟨ps2, k, hann, hlen, fun _ => hget, hpi, ?_⟩
  simp only [categoryRank]
  rw [hgd, hp, bind_ok_eq, hann, bind_ok_eq, hgd2, hpi]

-- Pointwise countP comparison.

theorem countP_eq_of_pointwise {α : Type} {p q : α → Bool} :
    ∀ {l l2 : List α}, l2.length = l.length →
      (∀ i (hi : i < l.length) (hi2 : i < l2.length), q (l2[i]) = p (l[i])) →
      l2.countP q = l.countP p := by
  intro l
  induction l with
  | nil =>
    intro l2 hlen _
    rw [List.length_nil] at hlen
    rw [List.eq_nil_of_length_eq_zero hlen]
    rfl
  | cons a as ih =>
    intro l2 hlen hpt
    cases l2 with
    | nil => simp at hlen
    | cons b bs =>
      simp only [List.length_cons, Nat.add_right_cancel_iff] at hlen
      have h0 := hpt 0 (by simp) (by simp)
      simp only [List.getElem_cons_zero] at h0
      have htail : ∀ i (hi : i < as.length) (hi2 : i < bs.length),
          q (bs[i]) = p (as[i]) := by
        intro i hi hi2
        have := hpt (i + 1) (by simpa using Nat.succ_lt_succ hi)
          (by simpa using Nat.succ_lt_succ hi2)
        simpa using this
      rw [List.countP_cons, List.countP_cons, ih hlen htail, h0]

theorem parsedCatOf_congr {p q : AthleteResultHeat} (h : p.category = q.category) :
    parsedCatOf p = parsedCatOf q := by
  unfold parsedCatOf
  rw [h]

-- processOne facts.

theorem processOne_nomatch {series : RaceSeries} {event : RaceEvent} {heat : Heat}
    {ar : AthleteResult}
    (hfil : heat.participants.filter (fun p => decide (p.name = ar.name)) = []) :
    processOne series event heat ar = .ok (heat, none, false) := by
  simp only [processOne]
  rw [hfil]
  rfl

theorem processOne_dup {series : RaceSeries} {event : RaceEvent} {heat : Heat}
    {ar : AthleteResult} {a b : AthleteResultHeat} {tl : List AthleteResultHeat}
    (hfil : heat.participants.filter (fun p => decide (p.name = ar.name))
      = a :: b :: tl) :
    processOne series event heat ar =
      .error (.duplicateParticipant ar.name heat.heat_id) := by
  simp only [processOne]
  rw [hfil]
  rw [if_neg (by simp)]
  rw [if_pos (by simp)]

theorem processOne_match {series : RaceSeries} {event : RaceEvent} {heat : Heat}
    {ar : AthleteResult} {tgt : AthleteResultHeat}
    (hfil : heat.participants.filter (fun p => decide (p.name = ar.name)) = [tgt])
    (hall : ∀ p ∈ heat.participants, ∃ v, parse_heat_category p.category = .ok v) :
    ∃ ps2 pl ct k,
      parse_heat_category tgt.category = .ok (pl, ct) ∧
      annotateAll (heat.participants.set
        (heat.participants.findIdx (fun p => decide (p.name = ar.name)))
        { tgt with place := pl }) = .ok ps2 ∧
      ps2.length = heat.participants.length ∧
      pyIndex { tgt with place := pl, parsed_place := pl, parsed_cat := ct }
        (pySorted (ps2.filter (fun p => decide (p.parsed_cat = ct)))) = some k ∧
      k < ps2.countP (fun p => decide (p.parsed_cat = ct)) ∧
      ps2.countP (fun p => decide (p.parsed_cat = ct)) =
        heat.participants.countP
          (fun p => decide (parsedCatOf p = parsedCatOf tgt)) ∧
      processOne series event heat ar = .ok ({ heat with participants := ps2 },
        some { event_date := ar.event_date, event_title := ar.event_title,
               event_details := ar.event_details, event_url := ar.event_url,
               place := ar.place, participant_count := ar.participant_count,
               points := ar.points, name := ar.name, time := ar.time,
               category := tgt.category, usac_number := tgt.usac_number,
               bib := tgt.bib, team := tgt.team,
               heat_id := heat.heat_id, heat_name := heat.heat_name,
               race_event_id := event.id,
               race_event_race_label := event.race_label,
               series_name := series.series_name, permit_id := series.permit_id,
               participants_in_cat :=
                 ps2.countP (fun p => decide (p.parsed_cat = ct)),
               place_in_cat := k + 1 }, true) := by
  obtain ⟨hj, hgetD, hptgt⟩ :=
    filter_singleton_findIdx (d := defaultParticipant) hfil
  have hgj : heat.participants[heat.participants.findIdx
      (fun p => decide (p.name = ar.name))] = tgt := by
    rw [← List.getD_eq_getElem _ defaultParticipant hj, hgetD]
  have hname : tgt.name = ar.name := of_decide_eq_true hptgt
  have htmem : tgt ∈ heat.participants :=
    List.mem_of_mem_filter (by rw [hfil]; exact List.mem_cons_self _ _)
  obtain ⟨⟨pl, ct⟩, hp⟩ := hall tgt htmem
  have hp' : parse_heat_category ((heat.participants[heat.participants.findIdx
      (fun p => decide (p.name = ar.name))]).category) = .ok (pl, ct) := by
    rw [hgj]; exact hp
  obtain ⟨ps2, k, hann, hlen, _, hpi, hcr⟩ := categoryRank_ok_spec hj hp' hall
  rw [hgj] at hann hpi hcr
  have hctgt : parsedCatOf tgt = ct := by unfold parsedCatOf; rw [hp]
  have hkb : k < ps2.countP (fun p => decide (p.parsed_cat = ct)) := by
    have h1 := pyIndex_some_lt hpi
    rw [length_pySorted] at h1
    rw [List.countP_eq_length_filter]
    exact h1
  have hcnt : ps2.countP (fun p => decide (p.parsed_cat = ct)) =
      heat.participants.countP
        (fun p => decide (parsedCatOf p = parsedCatOf tgt)) := by
    rw [hctgt]
    refine countP_eq_of_pointwise (by rw [hlen]) ?_
    intro i hi hi2
    have hs : i < (heat.participants.set (heat.participants.findIdx
        (fun p => decide (p.name = ar.name))) { tgt with place := pl }).length := by
      rw [List.length_set]; exact hi
    have hag := annotateAll_get hann i hs hi2
    obtain ⟨pli, cti, hpci, hrec⟩ := annotate_ok_inv hag
    have hcat : ((heat.participants.set (heat.participants.findIdx
        (fun p => decide (p.name = ar.name))) { tgt with place := pl })[i]).category
        = (heat.participants[i]).category := by
      by_cases hij : heat.participants.findIdx (fun p => decide (p.name = ar.name)) = i
      · subst hij
        rw [List.getElem_set_self hs]
        rw [hgj]
      · rw [List.getElem_set_ne hij hs]
    have hcti : cti = parsedCatOf (heat.participants[i]) := by
      have h1 : parsedCatOf ((heat.participants.set (heat.participants.findIdx
          (fun p => decide (p.name = ar.name))) { tgt with place := pl })[i])
          = cti := by
        unfold parsedCatOf
        rw [hpci]
      rw [← h1]
      exact parsedCatOf_congr hcat
    rw [hrec]
    simp only [hcti]
  have hfc : from_components ar
      { tgt with place := pl, parsed_place := pl, parsed_cat := ct }
      { heat with participants := ps2 } event series
      (ps2.countP (fun p => decide (p.parsed_cat = ct))) (k + 1) =
      .ok { event_date := ar.event_date, event_title := ar.event_title,
            event_details := ar.event_details, event_url := ar.event_url,
            place := ar.place, participant_count := ar.participant_count,
            points := ar.points, name := ar.name, time := ar.time,
            category := tgt.category, usac_number := tgt.usac_number,
            bib := tgt.bib, team := tgt.team,
            heat_id := heat.heat_id, heat_name := heat.heat_name,
            race_event_id := event.id,
            race_event_race_label := event.race_label,
            series_name := series.series_name, permit_id := series.permit_id,
            participants_in_cat :=
              ps2.countP (fun p => decide (p.parsed_cat = ct)),
            place_in_cat := k + 1 } := by
    unfold from_components
    rw [if_pos hname.symm]
  refine ⟨ps2, pl, ct, k, hp, hann, hlen, hpi, hkb, hcnt, ?_⟩
  simp only [processOne]
  rw [hfil]
  rw [if_neg (by simp)]
  rw [if_neg (by simp)]
  rw [hcr, bind_ok_eq, hfc, bind_ok_eq]

-- Merger inversion.

theorem from_components_ok_inv {r : AthleteResult} {hr : AthleteResultHeat}
    {ht : Heat} {ev : RaceEvent} {se : RaceSeries} {a b : Nat}
    {d : AthleteResultDetailed}
    (h : from_components r hr ht ev se a b = .ok d) :
    r.name = hr.name ∧ d.participants_in_cat = a ∧ d.place_in_cat = b ∧
      d.name = r.name ∧ d.place = r.place ∧ d.race_event_id = ev.id ∧
      d.heat_id = ht.heat_id := by
  unfold from_components at h
  by_cases hn : r.name = hr.name
  · rw [if_pos hn] at h
    simp only [Except.ok.injEq] at h
    subst h
    exact ⟨hn, rfl, rfl, rfl, rfl, rfl, rfl⟩
  · rw [if_neg hn] at h
    exact absurd h (by simp)

-- processOne inversion: a successful run that produced a record went through
-- the normalizer and the merger.

theorem processOne_ok_some_inv {series : RaceSeries} {event : RaceEvent}
    {heat : Heat} {ar : AthleteResult} {h' : Heat} {d : AthleteResultDetailed}
    {ann : Bool}
    (h : processOne series event heat ar = .ok (h', some d, ann)) :
    ∃ ps2 tgt2 cnt pic,
      categoryRank heat.participants
        (heat.participants.findIdx (fun p => decide (p.name = ar.name))) =
        .ok (ps2, tgt2, cnt, pic) ∧
      from_components ar tgt2 { heat with participants := ps2 } event series
        cnt pic = .ok d := by
  simp only [processOne] at h
  by_cases h1 : (heat.participants.filter
      (fun p => decide (p.name = ar.name))).isEmpty = true
  · rw [if_pos h1] at h
    simp at h
  · rw [if_neg h1] at h
    by_cases h2 : 1 < (heat.participants.filter
        (fun p => decide (p.name = ar.name))).length
    · rw [if_pos h2] at h
      exact absurd h (by simp)
    · rw [if_neg h2] at h
      cases hcr : categoryRank heat.participants
          (heat.participants.findIdx (fun p => decide (p.name = ar.name))) with
      | error e => rw [hcr, bind_error_eq] at h; exact absurd h (by simp)
      | ok v =>
        obtain ⟨ps2, tgt2, cnt, pic⟩ := v
        rw [hcr, bind_ok_eq] at h
        cases hfc : from_components ar tgt2 { heat with participants := ps2 }
            event series cnt pic with
        | error e => rw [hfc, bind_error_eq] at h; exact absurd h (by simp)
        | ok d0 =>
          rw [hfc, bind_ok_eq] at h
          simp only [Except.ok.injEq, Prod.mk.injEq, Option.some.injEq] at h
          obtain ⟨-, hd, -⟩ := h
          exact ⟨ps2, tgt2, cnt, pic, rfl, hd ▸ hfc⟩

-- Provenance: every record in an aggregate output was produced by some
-- successful processOne call.

theorem processHeat_ok_mem {series : RaceSeries} {event : RaceEvent} :
    ∀ {recs : List AthleteResult} {heat hOut : Heat}
      {out : List AthleteResultDetailed} {n : Nat},
      processHeat series event heat recs = .ok (hOut, out, n) →
      ∀ d ∈ out, ∃ heat1 ar h1 ann,
        processOne series event heat1 ar = .ok (h1, some d, ann) := by
  intro recs
  induction recs with
  | nil =>
    intro heat hOut out n h d hd
    simp only [processHeat, Except.ok.injEq, Prod.mk.injEq] at h
    obtain ⟨-, h2, -⟩ := h
    rw [← h2] at hd
    simp at hd
  | cons ar ars ih =>
    intro heat hOut out n h d hd
    simp only [processHeat] at h
    cases hpo : processOne series event heat ar with
    | error e => rw [hpo, bind_error_eq] at h; exact absurd h (by simp)
    | ok v =>
      obtain ⟨h1, r?, ann⟩ := v
      rw [hpo, bind_ok_eq] at h
      cases hph : processHeat series event h1 ars with
      | error e => rw [hph, bind_error_eq] at h; exact absurd h (by simp)
      | ok w =>
        obtain ⟨h2, rs, n2⟩ := w
        rw [hph, bind_ok_eq] at h
        simp only [Except.ok.injEq, Prod.mk.injEq] at h
        obtain ⟨-, hout, -⟩ := h
        rw [← hout] at hd
        rcases List.mem_append.mp hd with hd1 | hd1
        · cases r? with
          | none => simp at hd1
          | some d0 =>
            simp only [Option.toList] at hd1
            rcases List.mem_singleton.mp hd1 with rfl
            exact ⟨heat, ar, h1, ann, hpo⟩
        · exact ih hph d hd1

theorem processHeats_ok_mem {series : RaceSeries} {event : RaceEvent}
    {recs : List AthleteResult} :
    ∀ {hs : List Heat} {out : List AthleteResultDetailed} {log : List String},
      processHeats series event recs hs = .ok (out, log) →
      ∀ d ∈ out, ∃ heat1 ar h1 ann,
        processOne series event heat1 ar = .ok (h1, some d, ann) := by
  intro hs
  induction hs with
  | nil =>
    intro out log h d hd
    simp only [processHeats, Except.ok.injEq, Prod.mk.injEq] at h
    rw [← h.1] at hd
    simp at hd
  | cons ht hts ih =>
    intro out log h d hd
    simp only [processHeats] at h
    cases hph : processHeat series event ht recs with
    | error e => rw [hph, bind_error_eq] at h; exact absurd h (by simp)
    | ok v =>
      obtain ⟨h1, rs, n⟩ := v
      rw [hph, bind_ok_eq] at h
      cases hphs : processHeats series event recs hts with
      | error e => rw [hphs, bind_error_eq] at h; exact absurd h (by simp)
      | ok w =>
        obtain ⟨rs2, log2⟩ := w
        rw [hphs, bind_ok_eq] at h
        simp only [Except.ok.injEq, Prod.mk.injEq] at h
        rw [← h.1] at hd
        rcases List.mem_append.mp hd with hd1 | hd1
        · exact processHeat_ok_mem hph d hd1
        · exact ih hphs d hd1

theorem processEvent_ok_mem {series : RaceSeries} {group : List AthleteResult}
    {event : RaceEvent} {out : List AthleteResultDetailed} {log : List String}
    (h : processEvent series group event = .ok (out, log)) :
    ∀ d ∈ out, ∃ heat1 ar h1 ann,
      processOne series event heat1 ar = .ok (h1, some d, ann) := by
  intro d hd
  simp only [processEvent] at h
  by_cases hrec : (group.filter
      (fun r => decide (r.event_date = event.event_date))).isEmpty = true
  · rw [if_pos hrec] at h
    simp only [Except.ok.injEq, Prod.mk.injEq] at h
    rw [← h.1] at hd
    simp at hd
  · rw [if_neg hrec] at h
    exact processHeats_ok_mem h d hd

theorem processEvents_ok_mem {series : RaceSeries} {group : List AthleteResult} :
    ∀ {es : List RaceEvent} {out : List AthleteResultDetailed} {log : List String},
      processEvents series group es = .ok (out, log) →
      ∀ d ∈ out, ∃ event1 heat1 ar h1 ann,
        processOne series event1 heat1 ar = .ok (h1, some d, ann) := by
  intro es
  induction es with
  | nil =>
    intro out log h d hd
    simp only [processEvents, Except.ok.injEq, Prod.mk.injEq] at h
    rw [← h.1] at hd
    simp at hd
  | cons e es0 ih =>
    intro out log h d hd
    simp only [processEvents] at h
    cases hpe : processEvent series group e with
    | error err => rw [hpe, bind_error_eq] at h; exact absurd h (by simp)
    | ok v =>
      obtain ⟨r1, l1⟩ := v
      rw [hpe, bind_ok_eq] at h
      cases hpes : processEvents series group es0 with
      | error err => rw [hpes, bind_error_eq] at h; exact absurd h (by simp)
      | ok w =>
        obtain ⟨r2, l2⟩ := w
        rw [hpes, bind_ok_eq] at h
        simp only [Except.ok.injEq, Prod.mk.injEq] at h
        rw [← h.1] at hd
        rcases List.mem_append.mp hd with hd1 | hd1
        · exact ⟨e, processEvent_ok_mem hpe d hd1⟩
        · exact ih hpes d hd1

theorem alignAll_ok_mem :
    ∀ {pairs : List (RaceSeries × List AthleteResult)}
      {out : List AthleteResultDetailed},
      alignAll pairs = .ok out →
      ∀ d ∈ out, ∃ series1 event1 heat1 ar h1 ann,
        processOne series1 event1 heat1 ar = .ok (h1, some d, ann) := by
  intro pairs
  induction pairs with
  | nil =>
    intro out h d hd
    simp only [alignAll, Except.ok.injEq] at h
    rw [← h] at hd
    simp at hd
  | cons pr rest ih =>
    intro out h d hd
    obtain ⟨s, g⟩ := pr
    simp only [alignAll] at h
    cases hps : processSeries s g with
    | error err => rw [hps, bind_error_eq] at h; exact absurd h (by simp)
    | ok v =>
      obtain ⟨r1, l1⟩ := v
      rw [hps, bind_ok_eq] at h
      cases hrest : alignAll rest with
      | error err => rw [hrest, bind_error_eq] at h; exact absurd h (by simp)
      | ok rs =>
        rw [hrest, bind_ok_eq] at h
        simp only [Except.ok.injEq] at h
        rw [← h] at hd
        rcases List.mem_append.mp hd with hd1 | hd1
        · exact ⟨s, processEvents_ok_mem hps d hd1⟩
        · exact ih hrest d hd1

theorem processOne_ok_some_bounds {series : RaceSeries} {event : RaceEvent}
    {heat : Heat} {ar : AthleteResult} {h' : Heat} {d : AthleteResultDetailed}
    {ann : Bool}
    (h : processOne series event heat ar = .ok (h', some d, ann)) :
    1 ≤ d.place_in_cat ∧ d.place_in_cat ≤ d.participants_in_cat := by
  obtain ⟨ps2, tgt2, cnt, pic, hcr, hfc⟩ := processOne_ok_some_inv h
  obtain ⟨pl, ct, k, hp, hann, htg, hcnt, hpi, hpic⟩ := categoryRank_ok_inv hcr
  obtain ⟨-, hdc, hdp, -, -, -, -⟩ := from_components_ok_inv hfc
  have hk := pyIndex_some_lt hpi
  rw [length_pySorted] at hk
  rw [hdc, hdp, hpic, hcnt, List.countP_eq_length_filter]
  omega

-- Constructive evaluation of the loops under the singleton-record hypotheses.

theorem processHeat_single {series : RaceSeries} {event : RaceEvent}
    {heat : Heat} {ar : AthleteResult} {h1 : Heat}
    {r? : Option AthleteResultDetailed} {ann : Bool}
    (h : processOne series event heat ar = .ok (h1, r?, ann)) :
    processHeat series event heat [ar] =
      .ok (h1, r?.toList, if ann then 1 else 0) := by
  simp only [processHeat]
  rw [h, bind_ok_eq]
  simp [bind_ok_eq]

theorem processHeats_singleton {series : RaceSeries} {event : RaceEvent}
    {ar : AthleteResult} :
    ∀ {hs : List Heat},
      (∀ h ∈ hs, h.participants.countP
        (fun p => decide (p.name = ar.name)) ≤ 1) →
      (∀ h ∈ hs, (∃ p ∈ h.participants, p.name = ar.name) →
        ∀ p ∈ h.participants, ∃ v, parse_heat_category p.category = .ok v) →
      ∃ out, processHeats series event [ar] hs = .ok (out,
          (hs.filter (fun h => h.participants.any
            (fun p => decide (p.name = ar.name)))).map (fun h => h.heat_id)) ∧
        out.map (fun d => (d.race_event_id, d.heat_id)) =
          (hs.filter (fun h => h.participants.any
            (fun p => decide (p.name = ar.name)))).map
            (fun h => (event.id, h.heat_id)) := by
  intro hs
  induction hs with
  | nil => intro _ _; exact ⟨[], rfl, rfl⟩
  | cons ht hts ih =>
    intro hcount hparse
    obtain ⟨out', hts_eq, hts_map⟩ :=
      ih (fun h hm => hcount h (List.mem_cons_of_mem ht hm))
         (fun h hm => hparse h (List.mem_cons_of_mem ht hm))
    cases hfc : ht.participants.filter (fun p => decide (p.name = ar.name)) with
    | nil =>
      have hnone := @processOne_nomatch series event ht ar hfc
      have hph := processHeat_single hnone
      have hany : ht.participants.any (fun p => decide (p.name = ar.name)) = false := by
        rw [← Bool.not_eq_true, List.any_eq_true]
        rintro ⟨x, hx, hpx⟩
        have : x ∈ ht.participants.filter (fun p => decide (p.name = ar.name)) :=
          List.mem_filter.mpr ⟨hx, hpx⟩
        rw [hfc] at this
        simp at this
      refine ⟨out', ?_, ?_⟩
      · simp only [processHeats]
        rw [hph, bind_ok_eq, hts_eq, bind_ok_eq]
        rw [List.filter_cons_of_neg (by simp [hany])]
        simp
      · rw [List.filter_cons_of_neg (by simp [hany])]
        exact hts_map
    | cons a tl =>
      cases tl with
      | nil =>
        have hpm : (∃ p ∈ ht.participants, p.name = ar.name) := by
          have ha : a ∈ ht.participants.filter
              (fun p => decide (p.name = ar.name)) := by
            rw [hfc]; exact List.mem_cons_self a []
          exact ⟨a, List.mem_of_mem_filter ha,
            of_decide_eq_true (List.mem_filter.mp ha).2⟩
        obtain ⟨ps2, pl, ct, k, hp, hann, hlen, hpi, hkb, hcnteq, hpo⟩ :=
          processOne_match hfc (hparse ht (List.mem_cons_self ht hts) hpm)
        obtain ⟨hUpd, d0, hpo', hid1, hid2⟩ :
            ∃ hUpd d0, processOne series event ht ar = .ok (hUpd, some d0, true) ∧
              d0.race_event_id = event.id ∧ d0.heat_id = ht.heat_id :=
          ⟨_, _, hpo, rfl, rfl⟩
        have hph := processHeat_single hpo'
        have hany : ht.participants.any (fun p => decide (p.name = ar.name)) = true := by
          rw [List.any_eq_true]
          have ha : a ∈ ht.participants.filter
              (fun p => decide (p.name = ar.name)) := by
            rw [hfc]; exact List.mem_cons_self a []
          exact ⟨a, List.mem_of_mem_filter ha, (List.mem_filter.mp ha).2⟩
        refine ⟨d0 :: out', ?_, ?_⟩
        · simp only [processHeats]
          rw [hph, bind_ok_eq, hts_eq, bind_ok_eq]
          rw [List.filter_cons, if_pos hany]
          simp
        · rw [List.filter_cons, if_pos hany]
          simp only [List.map_cons, hid1, hid2, hts_map]
      | cons b tl2 =>
        exfalso
        have := hcount ht (List.mem_cons_self ht hts)
        rw [List.countP_eq_length_filter, hfc] at this
        simp at this

theorem processEvent_skip {series : RaceSeries} {group : List AthleteResult}
    {event : RaceEvent}
    (h : group.filter (fun r => decide (r.event_date = event.event_date)) = []) :
    processEvent series group event = .ok ([], []) := by
  simp only [processEvent]
  rw [h]
  rfl

theorem processEvent_one {series : RaceSeries} {group : List AthleteResult}
    {event : RaceEvent} {ar : AthleteResult}
    (hrec : group.filter
      (fun r => decide (r.event_date = event.event_date)) = [ar])
    (hcount : ∀ h ∈ event.heats, h.participants.countP
      (fun p => decide (p.name = ar.name)) ≤ 1)
    (hparse : ∀ h ∈ event.heats, (∃ p ∈ h.participants, p.name = ar.name) →
      ∀ p ∈ h.participants, ∃ v, parse_heat_category p.category = .ok v) :
    ∃ out, processEvent series group event = .ok (out,
        (event.heats.filter (fun h => h.participants.any
          (fun p => decide (p.name = ar.name)))).map (fun h => h.heat_id)) ∧
      out.map (fun d => (d.race_event_id, d.heat_id)) =
        (event.heats.filter (fun h => h.participants.any
          (fun p => decide (p.name = ar.name)))).map
          (fun h => (event.id, h.heat_id)) := by
  obtain ⟨out, h1, h2⟩ := @processHeats_singleton series event ar event.heats
    hcount hparse
  refine ⟨out, ?_, h2⟩
  simp only [processEvent]
  rw [hrec]
  rw [if_neg (by simp)]
  exact h1

/-- Evaluation of one series under the §4.4 preconditions: every event's date
selects exactly one summary record (`recOf`), names are unambiguous in every
heat, and every roster the athlete appears in parses.  The outputs and the
annotation log follow the series→event→heat processing order. -/
theorem processSeries_spec {group : List AthleteResult}
    (recOf : RaceEvent → AthleteResult) {series : RaceSeries} :
    ∀ {es : List RaceEvent},
      (∀ e ∈ es, group.filter
        (fun r => decide (r.event_date = e.event_date)) = [recOf e]) →
      (∀ e ∈ es, ∀ h ∈ e.heats, h.participants.countP
        (fun p => decide (p.name = (recOf e).name)) ≤ 1) →
      (∀ e ∈ es, ∀ h ∈ e.heats,
        (∃ p ∈ h.participants, p.name = (recOf e).name) →
        ∀ p ∈ h.participants, ∃ v, parse_heat_category p.category = .ok v) →
      ∃ out, processEvents series group es = .ok (out,
          concatMap (fun e => (e.heats.filter (fun h => h.participants.any
            (fun p => decide (p.name = (recOf e).name)))).map
            (fun h => h.heat_id)) es) ∧
        out.map (fun d => (d.race_event_id, d.heat_id)) =
          concatMap (fun e => (e.heats.filter (fun h => h.participants.any
            (fun p => decide (p.name = (recOf e).name)))).map
            (fun h => (e.id, h.heat_id))) es := by
  intro es
  induction es with
  | nil => intro _ _ _; exact ⟨[], rfl, rfl⟩
  | cons e es0 ih =>
    intro hone hcount hparse
    obtain ⟨out0, h0eq, h0map⟩ := @processEvent_one series group e (recOf e)
      (hone e (List.mem_cons_self e es0))
      (hcount e (List.mem_cons_self e es0))
      (hparse e (List.mem_cons_self e es0))
    obtain ⟨out1, h1eq, h1map⟩ :=
      ih (fun x hx => hone x (List.mem_cons_of_mem e hx))
         (fun x hx => hcount x (List.mem_cons_of_mem e hx))
         (fun x hx => hparse x (List.mem_cons_of_mem e hx))
    refine ⟨out0 ++ out1, ?_, ?_⟩
    · simp only [processEvents]
      rw [h0eq, bind_ok_eq, h1eq, bind_ok_eq]
      simp only [concatMap]
    · simp only [List.map_append, h0map, h1map, concatMap]

theorem searchFrom_of_matchAt {l : List Char} {r : Nat × String}
    (hne : l ≠ []) (hm : matchAt l = some r) : searchFrom l = some r := by
  cases l with
  | nil => exact absurd rfl hne
  | cons c cs =>
    unfold searchFrom
    rw [hm]

theorem grammar_head_digit {tok : List Char} (h : IsGrammarToken tok) :
    ∃ hd tl, tok = hd :: tl ∧ hd.isDigit = true := by
  obtain ⟨d1, w1, w2, d2, c, a, t, htok, hd1, hd1d, -⟩ := h
  cases hd1c : d1 with
  | nil => exact absurd hd1c hd1
  | cons x xs =>
    refine ⟨x, xs ++ w1 ++ ['-'] ++ w2 ++ [c, a, t] ++ d2, ?_, ?_⟩
    · rw [htok, hd1c]
      simp [List.append_assoc]
    · exact hd1d x (hd1c ▸ List.mem_cons_self x xs)

/-- C3: every text token of the grammar `<integer> - Cat<integer>`
(case-insensitive `Cat`, optional whitespace around the hyphen) parses to
(first integer as an integer, the digits following `Cat` as text). -/
theorem C3_parser_valid_tokens (d1 w1 w2 d2 : List Char) (c a t : Char)
    (hd1 : d1 ≠ []) (hd1d : ∀ x ∈ d1, x.isDigit = true)
    (hw1 : ∀ x ∈ w1, pySpace x = true) (hw2 : ∀ x ∈ w2, pySpace x = true)
    (hc : c = 'C' ∨ c = 'c') (ha : a = 'A' ∨ a = 'a') (ht : t = 'T' ∨ t = 't')
    (hd2 : d2 ≠ []) (hd2d : ∀ x ∈ d2, x.isDigit = true) :
    parse_heat_category (some (String.mk
      (d1 ++ w1 ++ ['-'] ++ w2 ++ [c, a, t] ++ d2))) =
      .ok (some (digitsToNat d1), some (String.mk d2)) := by
  have hm : matchAt (d1 ++ w1 ++ ['-'] ++ w2 ++ [c, a, t] ++ d2) =
      some (digitsToNat d1, String.mk d2) := by
    have h0 := matchAt_grammar [] hd1 hd1d hw1 hw2 hc ha ht hd2 hd2d
    simp only [List.append_nil] at h0
    rw [takeWhile_all hd2d] at h0
    exact h0
  have hne : d1 ++ w1 ++ ['-'] ++ w2 ++ [c, a, t] ++ d2 ≠ [] := by
    cases hd1c : d1 with
    | nil => exact absurd hd1c hd1
    | cons x xs => simp
  have hs := searchFrom_of_matchAt hne hm
  simp only [parse_heat_category]
  rw [hs]

/-- C3 witness: `"12 - Cat3"` parses to `(12, "3")`. -/
theorem C3_parser_valid_tokens_witness :
    parse_heat_category (some (String.mk
      ['1', '2', ' ', '-', ' ', 'C', 'a', 't', '3'])) =
      .ok (some 12, some (String.mk ['3'])) :=
  C3_parser_valid_tokens ['1', '2'] [' '] [' '] ['3'] 'C' 'a' 't'
    (by decide) (by decide) (by decide) (by decide) (Or.inl rfl) (Or.inr rfl)
    (Or.inr rfl) (by decide) (by decide)

/-- C4 counterexample: `"x12 - Cat3"` is not a grammar token (it starts with a
non-digit), yet the parser succeeds — `re.search` accepts any input that
merely CONTAINS a grammar token, so "fails iff the input does not match the
grammar" is false as stated. -/
theorem C4_counterexample :
    ¬ IsGrammarToken ("x12 - Cat3" : String).data ∧
    parse_heat_category (some "x12 - Cat3") = .ok (some 12, some "3") := by
  constructor
  · intro h
    obtain ⟨hd, tl, heq, hdig⟩ := grammar_head_digit h
    have hx : hd = 'x' := by
      have : ("x12 - Cat3" : String).data = 'x' :: "12 - Cat3".data := rfl
      rw [this] at heq
      exact (List.cons.injEq _ _ _ _ ▸ heq).1.symm
    rw [hx] at hdig
    exact absurd hdig (by decide)
  · decide

/-- C4 (amended): the parser raises a FormatError exactly when the non-null
input contains no substring matching the grammar (the code uses `re.search`,
so a grammar token anywhere in the input makes it succeed); a null input
yields `(None, None)` and never raises; `"DNF"`, `"12-3"` and `""` all fail. -/
theorem C4_parser_failure_iff (s : String) :
    ((∃ e, parse_heat_category (some s) = .error e) ↔
      ¬ ∃ pre tok suf, s.data = pre ++ tok ++ suf ∧ IsGrammarToken tok) ∧
    parse_heat_category none = .ok (none, none) ∧
    parse_heat_category (some "DNF") = .error (.formatError "DNF") ∧
    parse_heat_category (some "12-3") = .error (.formatError "12-3") ∧
    parse_heat_category (some "") = .error (.formatError "") := by
  refine ⟨?_, rfl, by decide, by decide, by decide⟩
  constructor
  · rintro ⟨e, he⟩
    simp only [parse_heat_category] at he
    cases hs : searchFrom s.data with
    | some r =>
      rw [hs] at he
      obtain ⟨n, code⟩ := r
      exact absurd he (by simp)
    | none => exact (searchFrom_none_iff_no_token s.data).mp hs
  · intro hno
    have hs := (searchFrom_none_iff_no_token s.data).mpr hno
    refine ⟨.formatError s, ?_⟩
    simp only [parse_heat_category]
    rw [hs]

/-- C4 witness: the amended characterization applied at `"DNF"`. -/
theorem C4_parser_failure_iff_witness :
    ∃ e, parse_heat_category (some "DNF") = .error e :=
  ⟨.formatError "DNF", (C4_parser_failure_iff "DNF").2.2.1⟩

/-- C9: the Merger checks the identity precondition independently of the
Matcher: unequal names fail with the IdentityMismatchError, equal names
produce a record without raising. -/
theorem C9_merger_identity :
    (∀ (r : AthleteResult) (hr : AthleteResultHeat) (ht : Heat)
       (ev : RaceEvent) (se : RaceSeries) (a b : Nat), r.name ≠ hr.name →
      from_components r hr ht ev se a b = .error .identityMismatch) ∧
    (∀ (r : AthleteResult) (hr : AthleteResultHeat) (ht : Heat)
       (ev : RaceEvent) (se : RaceSeries) (a b : Nat), r.name = hr.name →
      ∃ d, from_components r hr ht ev se a b = .ok d) := by
  constructor
  · intro r hr ht ev se a b hne
    unfold from_components
    rw [if_neg hne]
  · intro r hr ht ev se a b heq
    unfold from_components
    rw [if_pos heq]
    exact ⟨_, rfl⟩

def exAr9 : AthleteResult :=
  { event_date := 20240414, event_title := "T", event_details := [],
    event_url := "U", place := some 2, participant_count := 11,
    points := none, name := "A. Rider", time := none }

def exHr9 : AthleteResultHeat :=
  { place := some 7, name := "A. Rider", category := some "3 - Cat2",
    usac_number := none, bib := none, team := none }

def exHr9bad : AthleteResultHeat :=
  { place := some 7, name := "B. Other", category := some "3 - Cat2",
    usac_number := none, bib := none, team := none }

def exHeat9 : Heat := { heat_id := "h9", heat_name := "H", participants := [] }

def exEvent9 : RaceEvent :=
  { event_name := "E", id := "e9", event_date := 20240414, race_label := none,
    heats := [] }

def exSeries9 : RaceSeries :=
  { series_name := "S", permit_id := "P", events := [] }

/-- C9 witness: both branches at concrete inputs. -/
theorem C9_merger_identity_witness :
    from_components exAr9 exHr9bad exHeat9 exEvent9 exSeries9 1 1 =
      .error .identityMismatch ∧
    ∃ d, from_components exAr9 exHr9 exHeat9 exEvent9 exSeries9 1 1 = .ok d :=
  ⟨C9_merger_identity.1 exAr9 exHr9bad exHeat9 exEvent9 exSeries9 1 1 (by decide),
   C9_merger_identity.2 exAr9 exHr9 exHeat9 exEvent9 exSeries9 1 1 (by decide)⟩

/-- C7 (amended): the Merger never overwrites a summary-record field — the
heat, event and series fields are merged under keys disjoint from the summary
keys (the event/series identifiers are namespaced as race_event_id /
race_event_race_label / series_name / permit_id) and the output's `place` is
the summary record's `place` — but the heat participant's own `place` is NOT
namespaced into the output: it is dropped (and, before that, overwritten
in memory by the parsed place at main.py:213). -/
theorem C7_merger_fields (r : AthleteResult) (hr : AthleteResultHeat)
    (ht : Heat) (ev : RaceEvent) (se : RaceSeries) (a b : Nat)
    (hname : r.name = hr.name) :
    ∃ d, from_components r hr ht ev se a b = .ok d ∧
      dictOf d =
        [("event_date", .vNat r.event_date),
         ("event_title", .vStr r.event_title),
         ("event_details", .vPairs r.event_details),
         ("event_url", .vStr r.event_url),
         ("place", .vOptNat r.place),
         ("participant_count", .vNat r.participant_count),
         ("points", .vOptStr r.points),
         ("name", .vStr r.name),
         ("time", .vOptStr r.time),
         ("category", .vOptStr hr.category),
         ("usac_number", .vOptNat hr.usac_number),
         ("bib", .vOptStr hr.bib),
         ("team", .vOptStr hr.team),
         ("heat_id", .vStr ht.heat_id),
         ("heat_name", .vStr ht.heat_name),
         ("race_event_id", .vStr ev.id),
         ("race_event_race_label", .vOptStr ev.race_label),
         ("series_name", .vStr se.series_name),
         ("permit_id", .vStr se.permit_id),
         ("participants_in_cat", .vNat a),
         ("place_in_cat", .vNat b)] := by
  unfold from_components
  rw [if_pos hname]
  exact ⟨_, rfl, rfl⟩

def exAr7 : AthleteResult :=
  { event_date := 20240414, event_title := "T", event_details := [],
    event_url := "U", place := some 2, participant_count := 11,
    points := none, name := "A. Rider", time := none }

def exHr7 : AthleteResultHeat :=
  { place := some 7, name := "A. Rider", category := some "3 - Cat2",
    usac_number := some 100, bib := some "1", team := some "TT" }

def exHeat7 : Heat :=
  { heat_id := "h7", heat_name := "H7",
    participants :=
      [ exHr7,
        { place := some 1, name := "B. Other", category := some "1 - Cat2",
          usac_number := some 101, bib := some "2", team := some "TT" } ] }

def exEvent7 : RaceEvent :=
  { event_name := "E7", id := "e7", event_date := 20240414, race_label := none,
    heats := [exHeat7] }

def exSeries7 : RaceSeries :=
  { series_name := "S7", permit_id := "P7", events := [exEvent7] }

/-- The dict of the record the alignment loop emits for `exHeat7`, if any. -/
def mergedDict7 : Option (List (String × FieldVal)) :=
  match processOne exSeries7 exEvent7 exHeat7 exAr7 with
  | .ok (_, some d, _) => some (dictOf d)
  | _ => none

/-- C7 counterexample: the heat participant's roster place (7) appears under
no key of the merged output — it is silently dropped, not namespaced (the
output's `place` is the summary record's 2), refuting "no information from
any source record is silently dropped". -/
theorem C7_counterexample :
    exHr7.place = some 7 ∧ exHr7 ∈ exHeat7.participants ∧
    exAr7.place = some 2 ∧
    mergedDict7.map (fun l =>
      decide (("place", FieldVal.vOptNat (some 2)) ∈ l) &&
      l.all (fun kv => decide (kv.2 ≠ FieldVal.vOptNat (some 7)))) =
      some true := by
  refine ⟨rfl, by decide, rfl, by decide⟩

/-- C5: for a heat with a unique name match whose roster parses, the emitted
record's participants_in_cat equals the number of roster rows (including the
target) whose parsed category code equals the target's parsed category code. -/
theorem C5_participants_in_cat (series : RaceSeries) (event : RaceEvent)
    (heat : Heat) (ar : AthleteResult) (tgt : AthleteResultHeat)
    (hfil : heat.participants.filter (fun p => decide (p.name = ar.name)) = [tgt])
    (hall : ∀ p ∈ heat.participants, ∃ v, parse_heat_category p.category = .ok v) :
    ∃ ps2 d ann,
      processOne series event heat ar =
        .ok ({ heat with participants := ps2 }, some d, ann) ∧
      d.participants_in_cat = heat.participants.countP
        (fun p => decide (parsedCatOf p = parsedCatOf tgt)) := by
  obtain ⟨ps2, pl, ct, k, hp, hann, hlen, hpi, hkb, hcnteq, hpo⟩ :=
    processOne_match hfil hall
  exact ⟨ps2, _, true, hpo, hcnteq⟩

def exAr5 : AthleteResult :=
  { event_date := 20240414, event_title := "T", event_details := [],
    event_url := "U", place := some 2, participant_count := 11,
    points := none, name := "A. Rider", time := none }

def exHr5 : AthleteResultHeat :=
  { place := some 9, name := "A. Rider", category := some "3 - Cat2",
    usac_number := none, bib := none, team := none }

def exHeat5 : Heat :=
  { heat_id := "h5", heat_name := "H5",
    participants :=
      [ exHr5,
        { place := some 1, name := "B. Other", category := some "1 - Cat2",
          usac_number := none, bib := none, team := none },
        { place := some 2, name := "C. Third", category := some "4 - Cat3",
          usac_number := none, bib := none, team := none } ] }

def exEvent5 : RaceEvent :=
  { event_name := "E5", id := "e5", event_date := 20240414, race_label := none,
    heats := [exHeat5] }

def exSeries5 : RaceSeries :=
  { series_name := "S5", permit_id := "P5", events := [exEvent5] }

/-- C5 witness: in a heat with categories Cat2, Cat2, Cat3 and target in
Cat2, participants_in_cat is the Cat2 count (2). -/
theorem C5_participants_in_cat_witness :
    ∃ ps2 d ann,
      processOne exSeries5 exEvent5 exHeat5 exAr5 =
        .ok ({ exHeat5 with participants := ps2 }, some d, ann) ∧
      d.participants_in_cat = exHeat5.participants.countP
        (fun p => decide (parsedCatOf p = parsedCatOf exHr5)) :=
  C5_participants_in_cat exSeries5 exEvent5 exHeat5 exAr5 exHr5 (by decide)
    (by
      intro p hp
      simp only [exHeat5, List.mem_cons] at hp
      rcases hp with rfl | rfl | rfl | h
      · exact ⟨(some 3, some "2"), by decide⟩
      · exact ⟨(some 1, some "2"), by decide⟩
      · exact ⟨(some 4, some "3"), by decide⟩
      · simp at h)

/-- C6: the Heat Participant Matcher returns no-match (not an error) on zero
name matches, the unique entry on exactly one, and fails with the
DuplicateParticipantError naming the athlete and the heat on two or more; in
the latter case the per-heat loop over the athlete's records errors without
emitting any DetailedResult for that heat. -/
theorem C6_matcher :
    (∀ (series : RaceSeries) (event : RaceEvent) (heat : Heat)
       (ar : AthleteResult),
      heat.participants.filter (fun p => decide (p.name = ar.name)) = [] →
      match_heat_participant heat ar.name = .ok none ∧
      processOne series event heat ar = .ok (heat, none, false)) ∧
    (∀ (heat : Heat) (nm : String) (m : AthleteResultHeat),
      heat.participants.filter (fun p => decide (p.name = nm)) = [m] →
      match_heat_participant heat nm = .ok (some m)) ∧
    (∀ (series : RaceSeries) (event : RaceEvent) (heat : Heat)
       (ar : AthleteResult) (recs : List AthleteResult),
      2 ≤ heat.participants.countP (fun p => decide (p.name = ar.name)) →
      recs ≠ [] → (∀ r ∈ recs, r.name = ar.name) →
      match_heat_participant heat ar.name =
        .error (.duplicateParticipant ar.name heat.heat_id) ∧
      processHeat series event heat recs =
        .error (.duplicateParticipant ar.name heat.heat_id)) := by
  refine ⟨?_, ?_, ?_⟩
  · intro series event heat ar hfil
    constructor
    · unfold match_heat_participant
      rw [hfil]
    · exact processOne_nomatch hfil
  · intro heat nm m hfil
    unfold match_heat_participant
    rw [hfil]
  · intro series event heat ar recs hcnt hne hnames
    have hflen : 2 ≤ (heat.participants.filter
        (fun p => decide (p.name = ar.name))).length := by
      rw [← List.countP_eq_length_filter]
      exact hcnt
    obtain ⟨a, b, tl, hfil⟩ := two_le_length_cases hflen
    constructor
    · unfold match_heat_participant
      rw [hfil]
    · cases recs with
      | nil => exact absurd rfl hne
      | cons r rest =>
        have hr : r.name = ar.name := hnames r (List.mem_cons_self r rest)
        have hfil' : heat.participants.filter
            (fun p => decide (p.name = r.name)) = a :: b :: tl := by
          rw [hr]
          exact hfil
        have hpo := @processOne_dup series event heat r a b tl hfil'
        simp only [processHeat]
        rw [hpo, bind_error_eq, hr]

def exAr6 : AthleteResult :=
  { event_date := 20240414, event_title := "T", event_details := [],
    event_url := "U", place := some 2, participant_count := 11,
    points := none, name := "A. Rider", time := none }

def exHr6 : AthleteResultHeat :=
  { place := some 9, name := "A. Rider", category := some "3 - Cat2",
    usac_number := none, bib := none, team := none }

def exHeat6none : Heat :=
  { heat_id := "h6a", heat_name := "H",
    participants :=
      [ { place := some 1, name := "B. Other", category := some "1 - Cat2",
          usac_number := none, bib := none, team := none } ] }

def exHeat6one : Heat :=
  { heat_id := "h6b", heat_name := "H", participants := [exHr6] }

def exHeat6dup : Heat :=
  { heat_id := "h6c", heat_name := "H", participants := [exHr6, exHr6] }

def exEvent6 : RaceEvent :=
  { event_name := "E6", id := "e6", event_date := 20240414, race_label := none,
    heats := [exHeat6dup] }

def exSeries6 : RaceSeries :=
  { series_name := "S6", permit_id := "P6", events := [exEvent6] }

/-- C6 witness: all three matcher branches at concrete heats. -/
theorem C6_matcher_witness :
    (match_heat_participant exHeat6none exAr6.name = .ok none ∧
      processOne exSeries6 exEvent6 exHeat6none exAr6 =
        .ok (exHeat6none, none, false)) ∧
    match_heat_participant exHeat6one "A. Rider" = .ok (some exHr6) ∧
    (match_heat_participant exHeat6dup exAr6.name =
      .error (.duplicateParticipant exAr6.name exHeat6dup.heat_id) ∧
    processHeat exSeries6 exEvent6 exHeat6dup [exAr6] =
      .error (.duplicateParticipant exAr6.name exHeat6dup.heat_id)) :=
  ⟨C6_matcher.1 exSeries6 exEvent6 exHeat6none exAr6 (by decide),
   C6_matcher.2.1 exHeat6one "A. Rider" exHr6 (by decide),
   C6_matcher.2.2 exSeries6 exEvent6 exHeat6dup exAr6 [exAr6] (by decide)
     (by decide)
     (by intro r hr; simp only [List.mem_singleton] at hr; rw [hr])⟩

theorem countP_le_one_of_unique_pos {α : Type} {p : α → Bool} :
    ∀ {l : List α} {j : Nat},
      (∀ i (hi : i < l.length), p (l[i]) = true → i = j) →
      l.countP p ≤ 1 := by
  intro l
  induction l with
  | nil => intro j _; simp [List.countP_nil]
  | cons a as ih =>
    intro j h
    by_cases hpa : p a = true
    · have htail : as.countP p = 0 := by
        rw [List.countP_eq_zero]
        intro x hx hpx
        obtain ⟨i, hi, hxi⟩ := List.getElem_of_mem hx
        have h1 := h (i + 1) (by simpa using Nat.succ_lt_succ hi)
          (by simpa [hxi] using hpx)
        have h0 := h 0 (by simp) (by simpa using hpa)
        omega
      rw [List.countP_cons, htail, hpa]
      simp
    · rw [List.countP_cons]
      rw [show (if p a = true then 1 else 0) = 0 from by simp [hpa]]
      cases j with
      | zero =>
        have htail : as.countP p = 0 := by
          rw [List.countP_eq_zero]
          intro x hx hpx
          obtain ⟨i, hi, hxi⟩ := List.getElem_of_mem hx
          have := h (i + 1) (by simpa using Nat.succ_lt_succ hi)
            (by simpa [hxi] using hpx)
          omega
        rw [htail]
        omega
      | succ j0 =>
        have hle := ih (j := j0) ?_
        · omega
        · intro i hi hpi
          have := h (i + 1) (by simpa using Nat.succ_lt_succ hi)
            (by simpa using hpi)
          omega

def exP2null : AthleteResultHeat :=
  { place := none, name := "N. Null", category := none, usac_number := none,
    bib := none, team := none, parsed_place := none, parsed_cat := some "3" }

def exP2five : AthleteResultHeat :=
  { place := none, name := "F. Five", category := none, usac_number := none,
    bib := none, team := none, parsed_place := some 5, parsed_cat := some "3" }

def exP2zero : AthleteResultHeat :=
  { place := none, name := "Z. Zero", category := none, usac_number := none,
    bib := none, team := none, parsed_place := some 0, parsed_cat := some "3" }

def exP2two : AthleteResultHeat :=
  { place := none, name := "T. Two", category := none, usac_number := none,
    bib := none, team := none, parsed_place := some 2, parsed_cat := some "3" }

/-- The §4.2 example roster: parsed raw places [null, 5, 0, 2], one category. -/
def exRoster2 : List AthleteResultHeat := [exP2null, exP2five, exP2zero, exP2two]

/-- C2: the Normalizer's place_in_category is 1 + the position of the target
in the stable ascending sort of the target's-category subset (null/0 raw
places sorting last, ties kept in roster order — `pySorted` is exactly that
ordering), the position being unique when the target's name is unique in the
roster; and on raw places [null, 5, 0, 2] in one category the sort yields
[2, 5, null, 0] with ranks 1, 2, 3, 4 (`list.index` + 1) respectively. -/
theorem C2_category_rank :
    (∀ (parts : List AthleteResultHeat) (j : Nat) (hj : j < parts.length),
      (∀ i (hi : i < parts.length),
        (parts[i]).name = (parts[j]).name → i = j) →
      (∀ p ∈ parts, ∃ v, parse_heat_category p.category = .ok v) →
      ∃ ps2 tgt2 k,
        categoryRank parts j = .ok (ps2, tgt2,
          ps2.countP (fun p => decide (p.parsed_cat =
            parsedCatOf (parts[j]))), k + 1) ∧
        (pySorted (ps2.filter (fun p => decide (p.parsed_cat =
          parsedCatOf (parts[j])))))[k]? = some tgt2 ∧
        (∀ i, (pySorted (ps2.filter (fun p => decide (p.parsed_cat =
          parsedCatOf (parts[j])))))[i]? = some tgt2 → i = k)) ∧
    (pySorted exRoster2).map (fun p => p.parsed_place) =
      [some 2, some 5, none, some 0] ∧
    pyIndex exP2two (pySorted exRoster2) = some 0 ∧
    pyIndex exP2five (pySorted exRoster2) = some 1 ∧
    pyIndex exP2null (pySorted exRoster2) = some 2 ∧
    pyIndex exP2zero (pySorted exRoster2) = some 3 := by
  refine ⟨?_, by decide, by decide, by decide, by decide, by decide⟩
  intro parts j hj huniq hall
  obtain ⟨⟨pl, ct⟩, hp⟩ := hall (parts[j]) (List.getElem_mem hj)
  obtain ⟨ps2, k, hann, hlen, hget2, hpi, hcr⟩ := categoryRank_ok_spec hj hp hall
  have hct : parsedCatOf (parts[j]) = ct := by
    unfold parsedCatOf
    rw [hp]
  rw [hct]
  refine ⟨ps2,
    { parts[j] with place := pl, parsed_place := pl, parsed_cat := ct }, k,
    hcr, (pyIndex_spec hpi).1, ?_⟩
  intro i hieq
  have hcount : (pySorted (ps2.filter (fun p => decide (p.parsed_cat = ct)))).countP
      (fun y => decide (y =
        { parts[j] with place := pl, parsed_place := pl, parsed_cat := ct })) ≤ 1 := by
    rw [countX_pySorted]
    have h1 : (ps2.filter (fun p => decide (p.parsed_cat = ct))).countP
        (fun y => decide (y =
          { parts[j] with place := pl, parsed_place := pl, parsed_cat := ct }))
        ≤ ps2.countP (fun y => decide (y =
          { parts[j] with place := pl, parsed_place := pl, parsed_cat := ct })) :=
      List.Sublist.countP_le _ (List.filter_sublist _)
    have h2 : ps2.countP (fun y => decide (y =
        { parts[j] with place := pl, parsed_place := pl, parsed_cat := ct }))
        ≤ ps2.countP (fun p => decide (p.name = (parts[j]).name)) := by
      refine countP_mono_of_imp ?_ ps2
      intro y hy
      rw [of_decide_eq_true hy]
      simp
    have h3 : ps2.countP (fun p => decide (p.name = (parts[j]).name)) =
        parts.countP (fun p => decide (p.name = (parts[j]).name)) := by
      apply countP_name_eq_of_map_name
      have hm1 := annotateAll_map_name hann
      have hm2 := map_name_set parts j { parts[j] with place := pl }
        (by rw [List.getD_eq_getElem _ _ hj])
      rw [hm1, hm2]
    have h4 : parts.countP (fun p => decide (p.name = (parts[j]).name)) ≤ 1 := by
      refine countP_le_one_of_unique_pos (j := j) ?_
      intro i2 hi2 hp2
      exact huniq i2 hi2 (of_decide_eq_true hp2)
    omega
  exact pos_unique_of_countX_le_one hcount hieq (pyIndex_spec hpi).1

def exParts2w : List AthleteResultHeat :=
  [ { place := some 9, name := "A. Rider", category := some "3 - Cat2",
      usac_number := none, bib := none, team := none },
    { place := some 1, name := "B. Other", category := some "1 - Cat2",
      usac_number := none, bib := none, team := none } ]

/-- C2 witness: the general rank characterization applied to a concrete
two-rider roster with target at position 0. -/
theorem C2_category_rank_witness :
    ∃ ps2 tgt2 k,
      categoryRank exParts2w 0 = .ok (ps2, tgt2,
        ps2.countP (fun p => decide (p.parsed_cat =
          parsedCatOf (exParts2w.get ⟨0, by decide⟩))), k + 1) ∧
      (pySorted (ps2.filter (fun p => decide (p.parsed_cat =
        parsedCatOf (exParts2w.get ⟨0, by decide⟩)))))[k]? = some tgt2 ∧
      (∀ i, (pySorted (ps2.filter (fun p => decide (p.parsed_cat =
        parsedCatOf (exParts2w.get ⟨0, by decide⟩)))))[i]? = some tgt2 → i = k) :=
  C2_category_rank.1 exParts2w 0 (by decide) (by decide)
    (by
      intro p hp
      simp only [exParts2w, List.mem_cons] at hp
      rcases hp with rfl | rfl | h
      · exact ⟨(some 3, some "2"), by decide⟩
      · exact ⟨(some 1, some "2"), by decide⟩
      · simp at h)

/-- C10: every DetailedResult a successful full alignment run emits has
participants_in_cat at least 1 and 1 <= place_in_cat <= participants_in_cat:
the matched target always belongs to its own parsed-category subset, so the
rank lookup lands inside the sorted subset. -/
theorem C10_rank_bounds (pairs : List (RaceSeries × List AthleteResult))
    (out : List AthleteResultDetailed) (h : alignAll pairs = .ok out) :
    ∀ d ∈ out, 1 ≤ d.participants_in_cat ∧ 1 ≤ d.place_in_cat ∧
      d.place_in_cat ≤ d.participants_in_cat := by
  intro d hd
  obtain ⟨s1, e1, h1, ar, h2, ann, hpo⟩ := alignAll_ok_mem h d hd
  have hb := processOne_ok_some_bounds hpo
  exact ⟨by omega, hb.1, hb.2⟩

def exAr10 : AthleteResult :=
  { event_date := 20240414, event_title := "T", event_details := [],
    event_url := "U", place := some 2, participant_count := 11,
    points := none, name := "A. Rider", time := none }

def exHeat10 : Heat :=
  { heat_id := "h10", heat_name := "H10",
    participants :=
      [ { place := some 9, name := "A. Rider", category := some "3 - Cat2",
          usac_number := none, bib := none, team := none },
        { place := some 1, name := "B. Other", category := some "1 - Cat2",
          usac_number := none, bib := none, team := none } ] }

def exSeries10 : RaceSeries :=
  { series_name := "S10", permit_id := "P10",
    events := [{ event_name := "E10", id := "e10", event_date := 20240414,
                 race_label := none, heats := [exHeat10] }] }

def exPairs10 : List (RaceSeries × List AthleteResult) :=
  [(exSeries10, [exAr10])]

def exOut10 : List AthleteResultDetailed :=
  match alignAll exPairs10 with
  | .ok o => o
  | .error _ => []

/-- C10 witness: the bounds hold on a concrete successful run. -/
theorem C10_rank_bounds_witness :
    alignAll exPairs10 = .ok exOut10 ∧
    ∀ d ∈ exOut10, 1 ≤ d.participants_in_cat ∧ 1 ≤ d.place_in_cat ∧
      d.place_in_cat ≤ d.participants_in_cat :=
  ⟨by decide, C10_rank_bounds exPairs10 exOut10 (by decide)⟩

def exAr1 : AthleteResult :=
  { event_date := 20240414, event_title := "Ravensdale Spring Classic",
    event_details := [], event_url := "U", place := some 2,
    participant_count := 11, points := none, name := "A. Rider", time := none }

def exHeat1 : Heat :=
  { heat_id := "h1", heat_name := "H1",
    participants :=
      [ { place := some 3, name := "A. Rider", category := some "3 - Cat2",
          usac_number := none, bib := none, team := none },
        { place := some 1, name := "B. Other", category := some "1 - Cat2",
          usac_number := none, bib := none, team := none } ] }

def exSeries1 : RaceSeries :=
  { series_name := "S1", permit_id := "P1",
    events := [{ event_name := "E1", id := "e1", event_date := 20240414,
                 race_label := none, heats := [exHeat1] }] }

/-- C1: with exactly one summary record and one RaceEvent per event date,
unambiguous names and parseable rosters, the alignment loop succeeds and
emits exactly one DetailedResult per heat whose roster contains the athlete's
exact name and none for other heats, ordered by event then heat (record order
is trivial with one record per date; series order is `alignAll`'s
concatenation order); and on the end-to-end scenario (summary place 2,
roster [A. Rider "3 - Cat2", B. Other "1 - Cat2"]) the single output has
participants_in_cat 2 and place_in_cat 2. -/
theorem C1_alignment :
    (∀ (series : RaceSeries) (group : List AthleteResult)
       (recOf : RaceEvent → AthleteResult),
      series.events.Pairwise (fun e1 e2 => e1.event_date ≠ e2.event_date) →
      (∀ e ∈ series.events, group.filter
        (fun r => decide (r.event_date = e.event_date)) = [recOf e]) →
      (∀ e ∈ series.events, ∀ h ∈ e.heats, h.participants.countP
        (fun p => decide (p.name = (recOf e).name)) ≤ 1) →
      (∀ e ∈ series.events, ∀ h ∈ e.heats,
        (∃ p ∈ h.participants, p.name = (recOf e).name) →
        ∀ p ∈ h.participants, ∃ v, parse_heat_category p.category = .ok v) →
      ∃ out log, processSeries series group = .ok (out, log) ∧
        out.map (fun d => (d.race_event_id, d.heat_id)) =
          concatMap (fun e => (e.heats.filter (fun h => h.participants.any
            (fun p => decide (p.name = (recOf e).name)))).map
            (fun h => (e.id, h.heat_id))) series.events) ∧
    (processSeries exSeries1 [exAr1]).toOption.map
      (fun r => r.1.map (fun d => (d.participants_in_cat, d.place_in_cat,
        d.race_event_id, d.heat_id))) = some [(2, 2, "e1", "h1")] := by
  constructor
  · intro series group recOf _ hone hcount hparse
    obtain ⟨out, heq, hmap⟩ := processSeries_spec recOf hone hcount hparse
    exact ⟨out, _, heq, hmap⟩
  · decide

/-- C1 witness: the general statement applied to the scenario series. -/
theorem C1_alignment_witness :
    ∃ out log, processSeries exSeries1 [exAr1] = .ok (out, log) ∧
      out.map (fun d => (d.race_event_id, d.heat_id)) =
        concatMap (fun e => (e.heats.filter (fun h => h.participants.any
          (fun p => decide (p.name = ((fun _ => exAr1) e).name)))).map
          (fun h => (e.id, h.heat_id))) exSeries1.events :=
  C1_alignment.1 exSeries1 [exAr1] (fun _ => exAr1) (by decide) (by decide)
    (by decide)
    (by
      intro e he h hh hex p hp
      simp only [exSeries1, List.mem_singleton] at he
      subst he
      simp only [List.mem_singleton] at hh
      subst hh
      simp only [exHeat1, List.mem_cons] at hp
      rcases hp with rfl | rfl | hcon
      · exact ⟨(some 3, some "2"), by decide⟩
      · exact ⟨(some 1, some "2"), by decide⟩
      · simp at hcon)

theorem nodupString_count_le_one : ∀ {l : List String}, l.Nodup →
    ∀ a, l.count a ≤ 1 := by
  intro l
  induction l with
  | nil => intro _ a; simp
  | cons b bs ih =>
    intro hnd a
    obtain ⟨hb, hbs⟩ := List.nodup_cons.mp hnd
    rw [List.count_cons]
    by_cases hba : b = a
    · subst hba
      rw [List.count_eq_zero_of_not_mem hb]
      simp
    · have := ih hbs a
      simp only [beq_iff_eq, if_neg hba]
      omega

theorem count_map_filter_le (hid : String) (g : Heat → String)
    (f : Heat → Bool) : ∀ hs : List Heat,
    ((hs.filter f).map g).count hid ≤ (hs.map g).count hid := by
  intro hs
  induction hs with
  | nil => simp
  | cons h0 hs0 ih =>
    rw [List.filter_cons]
    by_cases hf : f h0 = true
    · rw [if_pos hf]
      simp only [List.map_cons, List.count_cons]
      omega
    · rw [if_neg hf]
      simp only [List.map_cons, List.count_cons]
      omega

theorem count_concatMap_le (hid : String) {f g : RaceEvent → List String} :
    ∀ (es : List RaceEvent), (∀ e ∈ es, (f e).count hid ≤ (g e).count hid) →
      (concatMap f es).count hid ≤ (concatMap g es).count hid := by
  intro es
  induction es with
  | nil => intro _; simp [concatMap]
  | cons e es0 ih =>
    intro h
    simp only [concatMap, List.count_append]
    have h1 := h e (List.mem_cons_self e es0)
    have h2 := ih (fun x hx => h x (List.mem_cons_of_mem e hx))
    omega

/-- C8 (amended): the annotation side effect runs once per (heat, matching
summary record) pair — never on heats of unmatched events or heats where the
athlete's name is absent; when every event date carries exactly one summary
record (and heat ids are globally distinct), no heat is annotated more than
once, and a heat is annotated exactly once iff the athlete's name appears in
its roster. -/
theorem C8_annotate_once (series : RaceSeries) (group : List AthleteResult)
    (recOf : RaceEvent → AthleteResult)
    (hone : ∀ e ∈ series.events, group.filter
      (fun r => decide (r.event_date = e.event_date)) = [recOf e])
    (hcount : ∀ e ∈ series.events, ∀ h ∈ e.heats, h.participants.countP
      (fun p => decide (p.name = (recOf e).name)) ≤ 1)
    (hparse : ∀ e ∈ series.events, ∀ h ∈ e.heats,
      (∃ p ∈ h.participants, p.name = (recOf e).name) →
      ∀ p ∈ h.participants, ∃ v, parse_heat_category p.category = .ok v) :
    ∃ out, processSeries series group = .ok (out,
        concatMap (fun e => (e.heats.filter (fun h => h.participants.any
          (fun p => decide (p.name = (recOf e).name)))).map
          (fun h => h.heat_id)) series.events) ∧
      ((concatMap (fun e => e.heats.map (fun h => h.heat_id))
          series.events).Nodup →
        ∀ hid : String,
          (concatMap (fun e => (e.heats.filter (fun h => h.participants.any
            (fun p => decide (p.name = (recOf e).name)))).map
            (fun h => h.heat_id)) series.events).count hid ≤ 1) := by
  obtain ⟨out, heq, _⟩ := processSeries_spec recOf hone hcount hparse
  refine ⟨out, heq, ?_⟩
  intro hnd hid
  have h1 := count_concatMap_le hid
    (f := fun e => (e.heats.filter (fun h => h.participants.any
      (fun p => decide (p.name = (recOf e).name)))).map (fun h => h.heat_id))
    (g := fun e => e.heats.map (fun h => h.heat_id))
    series.events
    (fun e _ => count_map_filter_le hid (fun h => h.heat_id) _ e.heats)
  have h2 := nodupString_count_le_one hnd hid
  omega

def exAr8 : AthleteResult :=
  { event_date := 20240414, event_title := "T", event_details := [],
    event_url := "U", place := some 2, participant_count := 11,
    points := none, name := "A. Rider", time := none }

def exHeat8a : Heat :=
  { heat_id := "h1", heat_name := "H",
    participants :=
      [ { place := some 3, name := "A. Rider", category := some "3 - Cat2",
          usac_number := none, bib := none, team := none } ] }

def exHeat8b : Heat :=
  { heat_id := "h2", heat_name := "H",
    participants :=
      [ { place := some 1, name := "B. Other", category := some "1 - Cat2",
          usac_number := none, bib := none, team := none } ] }

def exSeries8 : RaceSeries :=
  { series_name := "S8", permit_id := "P8",
    events := [{ event_name := "E8", id := "e8", event_date := 20240414,
                 race_label := none, heats := [exHeat8a, exHeat8b] }] }

def exHeat8x : Heat :=
  { heat_id := "hx", heat_name := "H",
    participants :=
      [ { place := some 3, name := "A. Rider", category := some "3 - Cat2",
          usac_number := none, bib := none, team := none } ] }

def exSeries8b : RaceSeries :=
  { series_name := "S8b", permit_id := "P8b",
    events := [{ event_name := "E8b", id := "e8b", event_date := 20240414,
                 race_label := none, heats := [exHeat8x] }] }

/-- C8 counterexample: in a run where the athlete appears in heat h1 but not
in heat h2, h2's roster is annotated zero times (not exactly once); and with
two summary records on the same event date, heat hx is annotated twice (the
side effect is per matching record, not per heat). -/
theorem C8_counterexample :
    (processSeries exSeries8 [exAr8]).toOption.map
      (fun r => (r.2.count "h1", r.2.count "h2")) = some (1, 0) ∧
    (processSeries exSeries8b [exAr8, exAr8]).toOption.map
      (fun r => r.2.count "hx") = some 2 := by
  exact ⟨by decide, by decide⟩

def exGroup8w : List AthleteResult := [exAr8]

/-- C8 witness: the amended statement applied to the two-heat series. -/
theorem C8_annotate_once_witness :
    ∃ out, processSeries exSeries8 exGroup8w = .ok (out,
        concatMap (fun e => (e.heats.filter (fun h => h.participants.any
          (fun p => decide (p.name = ((fun _ => exAr8) e).name)))).map
          (fun h => h.heat_id)) exSeries8.events) ∧
      ((concatMap (fun e => e.heats.map (fun h => h.heat_id))
          exSeries8.events).Nodup →
        ∀ hid : String,
          (concatMap (fun e => (e.heats.filter (fun h => h.participants.any
            (fun p => decide (p.name = ((fun _ => exAr8) e).name)))).map
            (fun h => h.heat_id)) exSeries8.events).count hid ≤ 1) :=
  C8_annotate_once exSeries8 exGroup8w (fun _ => exAr8) (by decide) (by decide)
    (by
      intro e he h hh hex p hp
      simp only [exSeries8, List.mem_singleton] at he
      subst he
      simp only [List.mem_cons] at hh
      rcases hh with rfl | rfl | hcon
      · simp only [exHeat8a, List.mem_cons] at hp
        rcases hp with rfl | hcon2
        · exact ⟨(some 3, some "2"), by decide⟩
        · simp at hcon2
      · simp only [exHeat8b, List.mem_cons] at hp
        rcases hp with rfl | hcon2
        · exact ⟨(some 1, some "2"), by decide⟩
        · simp at hcon2
      · simp at hcon)

/-- C7 witness: the amended field-merge characterization at concrete inputs. -/
theorem C7_merger_fields_witness :
    ∃ d, from_components exAr7 exHr7 exHeat7
        { event_name := "E7", id := "e7", event_date := 20240414,
          race_label := none, heats := [exHeat7] } exSeries7 2 2 = .ok d ∧
      dictOf d =
        [("event_date", .vNat exAr7.event_date),
         ("event_title", .vStr exAr7.event_title),
         ("event_details", .vPairs exAr7.event_details),
         ("event_url", .vStr exAr7.event_url),
         ("place", .vOptNat exAr7.place),
         ("participant_count", .vNat exAr7.participant_count),
         ("points", .vOptStr exAr7.points),
         ("name", .vStr exAr7.name),
         ("time", .vOptStr exAr7.time),
         ("category", .vOptStr exHr7.category),
         ("usac_number", .vOptNat exHr7.usac_number),
         ("bib", .vOptStr exHr7.bib),
         ("team", .vOptStr exHr7.team),
         ("heat_id", .vStr exHeat7.heat_id),
         ("heat_name", .vStr exHeat7.heat_name),
         ("race_event_id", .vStr "e7"),
         ("race_event_race_label", .vOptStr none),
         ("series_name", .vStr exSeries7.series_name),
         ("permit_id", .vStr exSeries7.permit_id),
         ("participants_in_cat", .vNat 2),
         ("place_in_cat", .vNat 2)] :=
  C7_merger_fields exAr7 exHr7 exHeat7
    { event_name := "E7", id := "e7", event_date := 20240414,
      race_label := none, heats := [exHeat7] } exSeries7 2 2 (by decide)
